import Mathlib

/-!
Verification development for the `substrate-kitties` runtime module
(`src/runtime/src/kitties.rs`): a deterministic ownership registry for
collectible assets with a per-owner doubly linked ownership index, five
state-transition operations (create, breed, transfer, ask, buy) and a
minimal marketplace.

The storage maps of the module are embedded as plain functions, machine
integers as `Nat` (the `KittyIndex` bound `Bounded::max_value()` is an
explicit parameter `maxId`, bytes carry explicit `< 256` bounds where
needed), and each operation threads the state explicitly, returning the
state as mutated so far together with an optional failure, mirroring the
early-return control flow of the source.
-/

set_option maxHeartbeats 1000000

namespace Kitties

/-- A node of the per-owner doubly linked ownership index
(`LinkedItem` in the source: `{prev, next}` over optional kitty ids). -/
structure LinkedItem where
  prev : Option Nat
  next : Option Nat
deriving DecidableEq

/-- A kitty: its 16 DNA bytes (`Kitty(pub [u8; 16])` in the source). -/
structure Kitty where
  dna : List Nat
deriving DecidableEq

abbrev AccountId := Nat

abbrev KittyIndex := Nat

/-- The slice of the `OwnedKitties` map belonging to one owner:
key `none` is the sentinel, key `some id` the node of kitty `id`. -/
abbrev OwnerMap := Option KittyIndex → Option LinkedItem

def OwnerMap.set (g : OwnerMap) (k : Option KittyIndex) (v : LinkedItem) : OwnerMap :=
  fun k2 => if k2 = k then some v else g k2

def OwnerMap.del (g : OwnerMap) (k : Option KittyIndex) : OwnerMap :=
  fun k2 => if k2 = k then none else g k2

/-- Reading a node, with an absent node defaulting to `{none, none}`
(the spec requires sentinel absence to compare as the empty list). -/
def OwnerMap.read (g : OwnerMap) (k : Option KittyIndex) : LinkedItem :=
  (g k).getD ⟨none, none⟩

/-- Modelled from the spec: `OwnershipIndex.append(owner, id)` of the
`LinkedList` component (`linked_item.rs`, which is not among the given
source files; only its callers and its tests are). Reads the sentinel;
if its `prev` (the tail) is none the list is empty and the sentinel and
the new node are written; otherwise the old tail's `next`, the new node
and the sentinel's `prev` are written, leaving the head unchanged. -/
def gAppend (g : OwnerMap) (id : KittyIndex) : OwnerMap :=
  let sentinel := g.read none
  match sentinel.prev with
  | none =>
      (g.set none ⟨some id, some id⟩).set (some id) ⟨none, none⟩
  | some tail =>
      let tailItem := g.read (some tail)
      ((g.set (some tail) ⟨tailItem.prev, some id⟩).set
          (some id) ⟨some tail, none⟩).set none ⟨some id, sentinel.next⟩

/-- Modelled from the spec: `OwnershipIndex.remove(owner, id)` of the
`LinkedList` component (`linked_item.rs`, not among the given source
files). No-op when the node is absent; otherwise relinks the
predecessor's `next` (or the sentinel's head) to `node.next`, the
successor's `prev` (or the sentinel's tail) to `node.prev`, and deletes
the node. -/
def gRemove (g : OwnerMap) (id : KittyIndex) : OwnerMap :=
  match g (some id) with
  | none => g
  | some item =>
    let g1 := match item.prev with
      | some p => g.set (some p) ⟨(g.read (some p)).prev, item.next⟩
      | none => g.set none ⟨(g.read none).prev, item.next⟩
    let g2 := match item.next with
      | some n => g1.set (some n) ⟨item.prev, (g1.read (some n)).next⟩
      | none => g1.set none ⟨item.prev, (g1.read none).next⟩
    g2.del (some id)

def mapInsert {α : Type} (m : Nat → Option α) (k : Nat) (v : α) : Nat → Option α :=
  fun k2 => if k2 = k then some v else m k2

def mapRemove {α : Type} (m : Nat → Option α) (k : Nat) : Nat → Option α :=
  fun k2 => if k2 = k then none else m k2

/-- The full `OwnedKitties` map, keyed by `(owner, Option kitty_id)`,
curried by owner; every key touched by one `append`/`remove` call shares
its owner, so the lift is per owner. -/
abbrev OwnedMap := AccountId → OwnerMap

def listAppend (m : OwnedMap) (o : AccountId) (id : KittyIndex) : OwnedMap :=
  fun o2 => if o2 = o then gAppend (m o2) id else m o2

def listRemove (m : OwnedMap) (o : AccountId) (id : KittyIndex) : OwnedMap :=
  fun o2 => if o2 = o then gRemove (m o2) id else m o2

/-- The named failure outcomes; one constructor per distinct error
string of the source (plus the currency failure of the external
ledger). -/
inductive KittyError
  /-- `"Kitties count overflow"` — the spec's `CounterOverflow`. -/
  | kittiesCountOverflow
  /-- `"Invalid kitty_id_1"` — the spec's `AssetNotFound` for `id1`. -/
  | invalidKittyId1
  /-- `"Invalid kitty_id_2"` — the spec's `AssetNotFound` for `id2`. -/
  | invalidKittyId2
  /-- `"Needs different parent"` — the spec's `SameParent`. -/
  | needsDifferentParent
  /-- `"Not owner of kitty1"` — the spec's `NotOwner` for `id1`. -/
  | notOwnerOfKitty1
  /-- `"Not owner of kitty2"` — the spec's `NotOwner` for `id2`. -/
  | notOwnerOfKitty2
  /-- `"Only owner can transfer kitty"` — the spec's `NotOwner`. -/
  | onlyOwnerCanTransfer
  /-- `"Only owner can set price for kitty"` — the spec's `NotOwner`. -/
  | onlyOwnerCanAsk
  /-- `"Kitty does not exist"` — the spec's `AssetNotFound` in `buy`. -/
  | kittyNotExist
  /-- `"Kitty not for sale"` — the spec's `NotForSale`. -/
  | kittyNotForSale
  /-- `"Price is too low"` — the spec's `PriceTooLow`. -/
  | priceTooLow
  /-- The external currency ledger's `InsufficientFunds`. -/
  | insufficientFunds
deriving DecidableEq

/-- The spec-level failure kinds (§7 of the spec). -/
inductive ErrKind
  | assetNotFound
  | sameParent
  | notOwner
  | counterOverflow
  | notForSale
  | priceTooLow
  | insufficientFunds
deriving DecidableEq

/-- The spec-level kind of each source error. -/
def KittyError.kind : KittyError → ErrKind
  | .kittiesCountOverflow => .counterOverflow
  | .invalidKittyId1 => .assetNotFound
  | .invalidKittyId2 => .assetNotFound
  | .needsDifferentParent => .sameParent
  | .notOwnerOfKitty1 => .notOwner
  | .notOwnerOfKitty2 => .notOwner
  | .onlyOwnerCanTransfer => .notOwner
  | .onlyOwnerCanAsk => .notOwner
  | .kittyNotExist => .assetNotFound
  | .kittyNotForSale => .notForSale
  | .priceTooLow => .priceTooLow
  | .insufficientFunds => .insufficientFunds

/-- The emitted domain events (`decl_event!` in the source). -/
inductive Event
  | Created (owner : AccountId) (id : KittyIndex)
  | Transferred (sender receiver : AccountId) (id : KittyIndex)
  | Ask (owner : AccountId) (id : KittyIndex) (price : Option Nat)
  | Sold (sender receiver : AccountId) (id : KittyIndex) (price : Nat)
deriving DecidableEq

/-- The storage of the module (`decl_storage!` in the source) together
with the balances of the external currency ledger and the emitted
events. -/
structure State where
  kitties : KittyIndex → Option Kitty
  kittiesCount : KittyIndex
  ownedKitties : OwnedMap
  kittyOwners : KittyIndex → Option AccountId
  kittyPrices : KittyIndex → Option Nat
  balances : AccountId → Nat
  events : List Event

/-- `fn next_kitty_id()`: the current count, or `"Kitties count
overflow"` when it equals the maximum representable id (`maxId` embeds
`<T::KittyIndex as Bounded>::max_value()`). -/
def next_kitty_id (maxId : Nat) (s : State) : Except KittyError KittyIndex :=
  if s.kittiesCount = maxId then .error .kittiesCountOverflow else .ok s.kittiesCount

/-- `fn insert_owned_kitty`: append to the owner's index list. -/
def insert_owned_kitty (s : State) (owner : AccountId) (kittyId : KittyIndex) : State :=
  { s with ownedKitties := listAppend s.ownedKitties owner kittyId }

/-- `fn insert_kitty`: store the kitty, bump the count, record the
owner, append to the owner's index list. -/
def insert_kitty (s : State) (owner : AccountId) (kittyId : KittyIndex) (kitty : Kitty) : State :=
  let s1 := { s with kitties := mapInsert s.kitties kittyId kitty }
  let s2 := { s1 with kittiesCount := kittyId + 1 }
  let s3 := { s2 with kittyOwners := mapInsert s2.kittyOwners kittyId owner }
  insert_owned_kitty s3 owner kittyId

/-- `pub fn create(origin)`; the DNA bytes stand for the externally
derived `random_value` of the caller. -/
def create (maxId : Nat) (s : State) (sender : AccountId) (dna : List Nat) :
    State × Option KittyError :=
  match next_kitty_id maxId s with
  | .error e => (s, some e)
  | .ok kittyId =>
    let s1 := insert_kitty s sender kittyId ⟨dna⟩
    ({ s1 with events := s1.events ++ [Event.Created sender kittyId] }, none)

/-- `fn combine_dna(dna1, dna2, selector) -> u8`:
`(selector & dna1) | (!selector & dna2)`; the complement of a byte is
`255 ^^^ selector`. -/
def combine_dna (dna1 dna2 selector : Nat) : Nat :=
  (selector &&& dna1) ||| ((255 ^^^ selector) &&& dna2)

/-- The 16-byte loop of `do_breed` building the child DNA from the
parents and the selector. -/
def childDna (dna1 dna2 selector : List Nat) : List Nat :=
  (List.range 16).map fun i => combine_dna (dna1.getD i 0) (dna2.getD i 0) (selector.getD i 0)

/-- `fn do_breed`: the five `ensure!` checks in source order, then id
allocation, DNA combination and `insert_kitty`; the selector bytes stand
for the externally derived `random_value` of the caller. -/
def do_breed (maxId : Nat) (s : State) (sender : AccountId) (id1 id2 : KittyIndex)
    (selector : List Nat) : State × Except KittyError KittyIndex :=
  match s.kitties id1 with
  | none => (s, .error .invalidKittyId1)
  | some kitty1 =>
    match s.kitties id2 with
    | none => (s, .error .invalidKittyId2)
    | some kitty2 =>
      if id1 = id2 then (s, .error .needsDifferentParent)
      else if s.kittyOwners id1 ≠ some sender then (s, .error .notOwnerOfKitty1)
      else if s.kittyOwners id2 ≠ some sender then (s, .error .notOwnerOfKitty2)
      else
        match next_kitty_id maxId s with
        | .error e => (s, .error e)
        | .ok kittyId =>
          (insert_kitty s sender kittyId ⟨childDna kitty1.dna kitty2.dna selector⟩, .ok kittyId)

/-- `pub fn breed(origin, kitty_id_1, kitty_id_2)`. -/
def breed (maxId : Nat) (s : State) (sender : AccountId) (id1 id2 : KittyIndex)
    (selector : List Nat) : State × Option KittyError :=
  match do_breed maxId s sender id1 id2 selector with
  | (s1, .error e) => (s1, some e)
  | (s1, .ok newId) => ({ s1 with events := s1.events ++ [Event.Created sender newId] }, none)

/-- `fn do_transfer`: index removal from `sender`, index append to
`receiver`, owner-pointer update. -/
def do_transfer (s : State) (sender receiver : AccountId) (kittyId : KittyIndex) : State :=
  let s1 := { s with ownedKitties := listRemove s.ownedKitties sender kittyId }
  let s2 := { s1 with ownedKitties := listAppend s1.ownedKitties receiver kittyId }
  { s2 with kittyOwners := mapInsert s2.kittyOwners kittyId receiver }

/-- `pub fn transfer(origin, to, kitty_id)`: the ownership `ensure!` on
the index node at `(sender, Some(kitty_id))`, then `do_transfer` and the
`Transferred` event. -/
def transfer (s : State) (sender receiver : AccountId) (kittyId : KittyIndex) :
    State × Option KittyError :=
  if (s.ownedKitties sender (some kittyId)).isSome then
    let s1 := do_transfer s sender receiver kittyId
    ({ s1 with events := s1.events ++ [Event.Transferred sender receiver kittyId] }, none)
  else (s, some .onlyOwnerCanTransfer)

/-- `pub fn ask(origin, kitty_id, price)`: the ownership `ensure!`, then
insert or remove of the price entry and the `Ask` event. -/
def ask (s : State) (sender : AccountId) (kittyId : KittyIndex) (price : Option Nat) :
    State × Option KittyError :=
  if (s.ownedKitties sender (some kittyId)).isSome then
    let s1 := match price with
      | some p => { s with kittyPrices := mapInsert s.kittyPrices kittyId p }
      | none => { s with kittyPrices := mapRemove s.kittyPrices kittyId }
    ({ s1 with events := s1.events ++ [Event.Ask sender kittyId price] }, none)
  else (s, some .onlyOwnerCanAsk)

/-- Modelled from the spec: `CurrencyLedger.transfer(from, to, amount)`
of the external currency service — an atomic debit/credit that fails
with `InsufficientFunds` and no mutation when the payer's balance is too
small. -/
def currencyTransfer (s : State) (payer payee : AccountId) (amount : Nat) :
    State × Option KittyError :=
  if amount ≤ s.balances payer then
    let b1 := fun a => if a = payer then s.balances payer - amount else s.balances a
    let b2 := fun a => if a = payee then b1 payee + amount else b1 a
    ({ s with balances := b2 }, none)
  else (s, some .insufficientFunds)

/-- `pub fn buy(origin, kitty_id, price)`: existence, listing and price
checks, the currency transfer of the listed price, then price removal,
`do_transfer` and the `Sold` event. -/
def buy (s : State) (sender : AccountId) (kittyId : KittyIndex) (price : Nat) :
    State × Option KittyError :=
  match s.kittyOwners kittyId with
  | none => (s, some .kittyNotExist)
  | some owner =>
    match s.kittyPrices kittyId with
    | none => (s, some .kittyNotForSale)
    | some kittyPrice =>
      if price < kittyPrice then (s, some .priceTooLow)
      else
        match currencyTransfer s sender owner kittyPrice with
        | (s1, some e) => (s1, some e)
        | (s1, none) =>
          let s2 := { s1 with kittyPrices := mapRemove s1.kittyPrices kittyId }
          let s3 := do_transfer s2 owner sender kittyId
          ({ s3 with events := s3.events ++ [Event.Sold owner sender kittyId kittyPrice] }, none)

/-- One submitted call of a mutating entry point; DNA and selector bytes
are the externally derived randomness of the call. -/
inductive Op
  | create (caller : AccountId) (dna : List Nat)
  | breed (caller : AccountId) (id1 id2 : KittyIndex) (selector : List Nat)
  | transfer (caller receiver : AccountId) (id : KittyIndex)
  | ask (caller : AccountId) (id : KittyIndex) (price : Option Nat)
  | buy (caller : AccountId) (id : KittyIndex) (price : Nat)

/-- Apply one call, keeping whatever state it returns (on failure the
state it had mutated so far). -/
def applyOp (maxId : Nat) (s : State) : Op → State
  | .create c d => (create maxId s c d).1
  | .breed c i1 i2 sel => (breed maxId s c i1 i2 sel).1
  | .transfer c r i => (transfer s c r i).1
  | .ask c i p => (ask s c i p).1
  | .buy c i p => (buy s c i p).1

def applyOps (maxId : Nat) (s : State) (ops : List Op) : State :=
  ops.foldl (applyOp maxId) s

/-- The genesis state: empty storage, given balances. -/
def initState (bal : AccountId → Nat) : State :=
  { kitties := fun _ => none
    kittiesCount := 0
    ownedKitties := fun _ _ => none
    kittyOwners := fun _ => none
    kittyPrices := fun _ => none
    balances := bal
    events := [] }

/-- Forward traversal of one owner's index: follow `next` from `cur`
(key `none` being the sentinel) until `none`, with explicit fuel. -/
def traverseNext (g : OwnerMap) : Nat → Option KittyIndex → List KittyIndex
  | 0, _ => []
  | fuel + 1, cur =>
    match (g.read cur).next with
    | none => []
    | some id => id :: traverseNext g fuel (some id)

/-- Backward traversal of one owner's index: follow `prev` from `cur`
until `none`, with explicit fuel. -/
def traversePrev (g : OwnerMap) : Nat → Option KittyIndex → List KittyIndex
  | 0, _ => []
  | fuel + 1, cur =>
    match (g.read cur).prev with
    | none => []
    | some id => id :: traversePrev g fuel (some id)

/-- `list_owned(owner)`: the ids enumerated by forward traversal from
the sentinel. -/
def list_owned (s : State) (o : AccountId) (fuel : Nat) : List KittyIndex :=
  traverseNext (s.ownedKitties o) fuel none

/-- The head of `l`, falling back to `nx` when `l` is empty. -/
def headOr (l : List KittyIndex) (nx : Option KittyIndex) : Option KittyIndex :=
  match l with
  | [] => nx
  | b :: _ => some b

/-- The last element of `l`, falling back to `pv` when `l` is empty. -/
def lastIn (pv : Option KittyIndex) (l : List KittyIndex) : Option KittyIndex :=
  match l.getLast? with
  | some x => some x
  | none => pv

/-- A doubly linked segment: the nodes of `l` are present in `g` and
chained in order, the first node's `prev` being `pv` and the last node's
`next` being `nx`. -/
def Seg (g : OwnerMap) : Option KittyIndex → List KittyIndex → Option KittyIndex → Prop
  | _, [], _ => True
  | pv, a :: rest, nx => g (some a) = some ⟨pv, headOr rest nx⟩ ∧ Seg g (some a) rest nx

/-- One owner's slice of the index represents the ordered id list `l`:
`l` is chained between `none` and `none`, the sentinel holds tail and
head (an absent sentinel also standing for the empty list), no node
exists outside `l`, and `l` has no duplicates. -/
def Represents (g : OwnerMap) (l : List KittyIndex) : Prop :=
  Seg g none l none ∧
  (l = [] → g none = none ∨ g none = some ⟨none, none⟩) ∧
  (∀ a rest, l = a :: rest → g none = some ⟨lastIn none l, some a⟩) ∧
  (∀ x, x ∉ l → g (some x) = none) ∧
  l.Nodup

/-- Owner `o`'s index represents `l`, and `l` holds exactly the ids
whose owner pointer is `o`. -/
def OwnedRel (s : State) (o : AccountId) (l : List KittyIndex) : Prop :=
  Represents (s.ownedKitties o) l ∧ ∀ id, id ∈ l ↔ s.kittyOwners id = some o

/-- The store invariant: kitty records and owner pointers exist exactly
for the ids below the count, and every owner's index slice represents a
list consistent with the owner pointers. -/
def Inv (s : State) : Prop :=
  (∀ id, (s.kitties id).isSome ↔ id < s.kittiesCount) ∧
  (∀ id, (s.kittyOwners id).isSome ↔ id < s.kittiesCount) ∧
  (∀ o, ∃ l, OwnedRel s o l)

/-- The consistency of one owner's enumerable index with the owner
pointers, as observed through traversal: forward traversal from the
sentinel (with fuel `s.kittiesCount`) enumerates exactly the ids whose
owner pointer is `o`, without duplicates; backward traversal is its
exact reverse; and an id enumerated for two owners forces the owners to
be equal. -/
def IndexConsistent (s : State) (o : AccountId) : Prop :=
  (∀ id, id ∈ list_owned s o s.kittiesCount ↔ s.kittyOwners id = some o) ∧
  (list_owned s o s.kittiesCount).Nodup ∧
  traversePrev (s.ownedKitties o) s.kittiesCount none =
    (list_owned s o s.kittiesCount).reverse ∧
  (∀ o2 id, id ∈ list_owned s o s.kittiesCount → id ∈ list_owned s o2 s.kittiesCount →
    o2 = o)

/-- The genesis balances of the test fixture (`new_test_ext` in the
source tests). -/
def balFix : AccountId → Nat :=
  fun a => if a = 1 then 10 else if a = 2 then 20 else 0

def dnaFix : List Nat := List.replicate 16 171

def dnaFix2 : List Nat := List.replicate 16 205

def selFix : List Nat := List.replicate 16 240

/-- Account 1 has created kitty 0. -/
def sOne : State := applyOps 100 (initState balFix) [Op.create 1 dnaFix]

/-- Account 1 has created kitty 0 and listed it at price 10. -/
def sAsk : State := applyOps 100 (initState balFix) [Op.create 1 dnaFix, Op.ask 1 0 (some 10)]

/-- Account 1 has created kitties 0 and 1. -/
def sTwo : State := applyOps 100 (initState balFix) [Op.create 1 dnaFix, Op.create 1 dnaFix2]

/-- With the id bound set to 2, account 1 has created kitties 0 and 1,
so the counter sits at the maximum representable id. -/
def sMax : State := applyOps 2 (initState balFix) [Op.create 1 dnaFix, Op.create 1 dnaFix]

/-- Swap the two pointers of a node. -/
def flipItem (it : LinkedItem) : LinkedItem := ⟨it.next, it.prev⟩

/-- Swap the two pointers of every node of an owner slice; backward
traversal of `g` is forward traversal of `flipMap g`. -/
def flipMap (g : OwnerMap) : OwnerMap := fun k => (g k).map flipItem

theorem set_self (g : OwnerMap) (k : Option KittyIndex) (v : LinkedItem) :
    (g.set k v) k = some v := by
  simp [OwnerMap.set]

theorem set_other (g : OwnerMap) {k k2 : Option KittyIndex} (v : LinkedItem) (h : k2 ≠ k) :
    (g.set k v) k2 = g k2 := by
  simp [OwnerMap.set, h]

theorem headOr_append (l1 l2 : List KittyIndex) (nx : Option KittyIndex) :
    headOr (l1 ++ l2) nx = headOr l1 (headOr l2 nx) := by
  cases l1 <;> simp [headOr]

theorem lastIn_nil (pv : Option KittyIndex) : lastIn pv [] = pv := rfl

theorem lastIn_cons (pv : Option KittyIndex) (a : KittyIndex) (l : List KittyIndex) :
    lastIn pv (a :: l) = lastIn (some a) l := by
  cases l with
  | nil => simp [lastIn]
  | cons b l2 =>
    cases h : (b :: l2).getLast? with
    | none => exact absurd h (by simp)
    | some x => simp [lastIn, List.getLast?_cons_cons, h]

theorem lastIn_concat (pv : Option KittyIndex) (l : List KittyIndex) (x : KittyIndex) :
    lastIn pv (l ++ [x]) = some x := by
  simp [lastIn, List.getLast?_concat]

theorem lastIn_isSome (a : KittyIndex) (l : List KittyIndex) :
    ∃ t, lastIn (some a) l = some t := by
  cases h : l.getLast? with
  | none => exact ⟨a, by simp [lastIn, h]⟩
  | some t => exact ⟨t, by simp [lastIn, h]⟩

theorem lastIn_reverse (nx : Option KittyIndex) (l : List KittyIndex) :
    lastIn nx l.reverse = headOr l nx := by
  cases l with
  | nil => rfl
  | cons b l2 => simp [lastIn, List.reverse_cons, List.getLast?_concat, headOr]

theorem seg_nil (g : OwnerMap) (pv nx : Option KittyIndex) : Seg g pv [] nx := trivial

theorem seg_cons_iff (g : OwnerMap) (pv nx : Option KittyIndex) (a : KittyIndex)
    (l : List KittyIndex) :
    Seg g pv (a :: l) nx ↔ g (some a) = some ⟨pv, headOr l nx⟩ ∧ Seg g (some a) l nx :=
  Iff.rfl

theorem seg_single (g : OwnerMap) (pv nx : Option KittyIndex) (a : KittyIndex) :
    Seg g pv [a] nx ↔ g (some a) = some ⟨pv, nx⟩ := by
  simp [Seg, headOr]

theorem seg_congr {g g2 : OwnerMap} {l : List KittyIndex} {pv nx : Option KittyIndex}
    (h : ∀ x ∈ l, g2 (some x) = g (some x)) (hs : Seg g pv l nx) : Seg g2 pv l nx := by
  induction l generalizing pv with
  | nil => trivial
  | cons a rest ih =>
    obtain ⟨h1, h2⟩ := hs
    exact ⟨(h a (by simp)).trans h1, ih (fun x hx => h x (by simp [hx])) h2⟩

theorem seg_append (g : OwnerMap) (pv nx : Option KittyIndex) (l1 l2 : List KittyIndex) :
    Seg g pv (l1 ++ l2) nx ↔ Seg g pv l1 (headOr l2 nx) ∧ Seg g (lastIn pv l1) l2 nx := by
  induction l1 generalizing pv with
  | nil => simp [Seg, lastIn_nil]
  | cons a rest ih =>
    rw [List.cons_append, seg_cons_iff, seg_cons_iff, headOr_append, ih, lastIn_cons, and_assoc]

theorem seg_mem_isSome {g : OwnerMap} {l : List KittyIndex} {pv nx : Option KittyIndex}
    {x : KittyIndex} (hs : Seg g pv l nx) (hx : x ∈ l) : (g (some x)).isSome := by
  induction l generalizing pv with
  | nil => cases hx
  | cons a rest ih =>
    obtain ⟨h1, h2⟩ := hs
    rcases List.mem_cons.mp hx with rfl | hx2
    · rw [h1]; rfl
    · exact ih h2 hx2

theorem seg_flip {g : OwnerMap} {l : List KittyIndex} {pv nx : Option KittyIndex}
    (hs : Seg g pv l nx) : Seg (flipMap g) nx l.reverse pv := by
  induction l generalizing pv with
  | nil => trivial
  | cons a rest ih =>
    obtain ⟨h1, h2⟩ := hs
    rw [List.reverse_cons, seg_append]
    refine ⟨ih h2, ?_⟩
    rw [lastIn_reverse, seg_single, flipMap, h1]
    rfl

theorem flipMap_read (g : OwnerMap) (k : Option KittyIndex) :
    (flipMap g).read k = flipItem (g.read k) := by
  cases h : g k <;> simp [flipMap, OwnerMap.read, h, flipItem]

theorem traversePrev_eq_flip (g : OwnerMap) (fuel : Nat) (cur : Option KittyIndex) :
    traversePrev g fuel cur = traverseNext (flipMap g) fuel cur := by
  induction fuel generalizing cur with
  | zero => rfl
  | succ n ih =>
    simp only [traversePrev, traverseNext, flipMap_read, flipItem]
    cases (g.read cur).prev with
    | none => rfl
    | some id => simp [ih]

theorem represents_not_mem {g : OwnerMap} {l : List KittyIndex} (h : Represents g l)
    {x : KittyIndex} (hx : x ∉ l) : g (some x) = none :=
  h.2.2.2.1 x hx

theorem represents_mem_iff {g : OwnerMap} {l : List KittyIndex} (h : Represents g l)
    (x : KittyIndex) : x ∈ l ↔ (g (some x)).isSome := by
  constructor
  · exact fun hx => seg_mem_isSome h.1 hx
  · intro hs
    by_contra hx
    rw [h.2.2.2.1 x hx] at hs
    simp at hs

theorem represents_append {g : OwnerMap} {l : List KittyIndex} (h : Represents g l)
    {id : KittyIndex} (hid : id ∉ l) : Represents (gAppend g id) (l ++ [id]) := by
  obtain ⟨hseg, hemp, hsent, hout, hnd⟩ := h
  rcases List.eq_nil_or_concat l with rfl | ⟨l1, t, hl⟩
  · have hsen : g.read none = ⟨none, none⟩ := by
      rcases hemp rfl with h0 | h0 <;> simp [OwnerMap.read, h0]
    have hg : gAppend g id = (g.set none ⟨some id, some id⟩).set (some id) ⟨none, none⟩ := by
      simp only [gAppend, hsen]
    rw [List.nil_append, hg]
    refine ⟨?_, by simp, ?_, ?_, ?_⟩
    · rw [seg_single]
      exact set_self _ _ _
    · intro a rest heq
      obtain ⟨rfl, rfl⟩ := List.cons.inj heq
      simp [OwnerMap.set, lastIn]
    · intro x hx
      have hxid : x ≠ id := by simpa using hx
      simp only [OwnerMap.set, if_neg (by simp [hxid] : some x ≠ some id),
        if_neg (by simp : (some x : Option KittyIndex) ≠ none)]
      exact hout x (by simp)
    · simp
  · rw [List.concat_eq_append] at hl
    subst hl
    have hne : l1 ++ [t] ≠ [] := by simp
    obtain ⟨a, rest, hcons⟩ := List.exists_cons_of_ne_nil hne
    have hsen : g none = some ⟨some t, some a⟩ := by
      rw [hsent a rest hcons, lastIn_concat]
    have hsegs := (seg_append g none none l1 [t]).mp hseg
    have htail : g (some t) = some ⟨lastIn none l1, none⟩ := (seg_single g _ _ _).mp hsegs.2
    have hidt : id ≠ t := fun hh => hid (by simp [hh])
    have hid1 : id ∉ l1 := fun hh => hid (by simp [hh])
    have hndt := List.nodup_append.mp hnd
    have htl1 : t ∉ l1 := fun hh => hndt.2.2 hh (by simp)
    have hread : g.read none = ⟨some t, some a⟩ := by simp [OwnerMap.read, hsen]
    have hg : gAppend g id =
        ((g.set (some t) ⟨lastIn none l1, some id⟩).set (some id) ⟨some t, none⟩).set
          none ⟨some id, some a⟩ := by
      simp [gAppend, OwnerMap.read, hsen, htail]
    rw [hg]
    refine ⟨?_, by simp, ?_, ?_, ?_⟩
    · rw [seg_append]
      refine ⟨?_, ?_⟩
      · rw [seg_append]
        refine ⟨?_, ?_⟩
        · refine seg_congr (fun x hx => ?_) hsegs.1
          have hxt : x ≠ t := fun hh => htl1 (hh ▸ hx)
          have hxi : x ≠ id := fun hh => hid1 (hh ▸ hx)
          simp [OwnerMap.set, hxt, hxi]
        · rw [seg_single]
          simp [OwnerMap.set, Ne.symm hidt, headOr]
      · rw [lastIn_concat, seg_single]
        simp [OwnerMap.set]
    · intro a2 rest2 heq
      have heq2 : a :: (rest ++ [id]) = a2 :: rest2 := by
        rw [← List.cons_append, ← hcons]
        exact heq
      obtain ⟨rfl, -⟩ := List.cons.inj heq2
      rw [lastIn_concat]
      simp [OwnerMap.set]
    · intro x hx
      simp only [List.mem_append, List.mem_singleton] at hx
      push_neg at hx
      obtain ⟨⟨hxl, hxt⟩, hxi⟩ := hx
      simp only [OwnerMap.set, if_neg (by simp : (some x : Option KittyIndex) ≠ none),
        if_neg (by simp [hxi] : some x ≠ some id), if_neg (by simp [hxt] : some x ≠ some t)]
      exact hout x (by simp [hxl, hxt])
    · rw [List.nodup_append]
      refine ⟨hnd, List.nodup_singleton id, fun x hx hmem => ?_⟩
      rw [List.mem_singleton] at hmem
      subst hmem
      exact hid hx

theorem lastIn_append (pv : Option KittyIndex) (xs ys : List KittyIndex) :
    lastIn pv (xs ++ ys) = lastIn (lastIn pv xs) ys := by
  induction xs generalizing pv with
  | nil => simp [lastIn_nil]
  | cons x xs ih => rw [List.cons_append, lastIn_cons, ih, lastIn_cons]

theorem lastIn_congr {l : List KittyIndex} (h : l ≠ []) (pv pv' : Option KittyIndex) :
    lastIn pv l = lastIn pv' l := by
  cases l with
  | nil => exact absurd rfl h
  | cons b L =>
    cases h2 : (b :: L).getLast? with
    | none => exact absurd h2 (by simp)
    | some x => simp [lastIn, h2]

theorem represents_remove {g : OwnerMap} {l : List KittyIndex} (h : Represents g l)
    (id : KittyIndex) : Represents (gRemove g id) (l.erase id) := by
  by_cases hmem : id ∈ l
  · obtain ⟨hseg, hemp, hsent, hout, hnd⟩ := h
    obtain ⟨l1, l2, rfl⟩ := List.append_of_mem hmem
    have hnd' := List.nodup_append.mp hnd
    have hndl1 : l1.Nodup := hnd'.1
    have hid2 : id ∉ l2 := (List.nodup_cons.mp hnd'.2.1).1
    have hndl2 : l2.Nodup := (List.nodup_cons.mp hnd'.2.1).2
    have hid1 : id ∉ l1 := fun hh => hnd'.2.2 hh (by simp)
    have hd12 : ∀ x ∈ l1, x ∉ l2 := fun x hx hx2 => hnd'.2.2 hx (by simp [hx2])
    have herase : (l1 ++ id :: l2).erase id = l1 ++ l2 := by
      rw [List.erase_append_right _ hid1, List.erase_cons_head]
    rw [herase]
    have hndL : (l1 ++ l2).Nodup := by
      rw [List.nodup_append]
      exact ⟨hndl1, hndl2, hd12⟩
    have hsegs := (seg_append g none none l1 (id :: l2)).mp hseg
    obtain ⟨hidnode, hsegl2⟩ := hsegs.2
    have hsegl1 := hsegs.1
    rcases List.eq_nil_or_concat l1 with rfl | ⟨l1', pt, hl1⟩
    · cases l2 with
      | nil =>
        have hidn : g (some id) = some ⟨none, none⟩ := hidnode
        have hsen : g none = some ⟨some id, some id⟩ := by
          have h0 := hsent id [] rfl
          simpa [lastIn] using h0
        refine ⟨trivial, fun _ => Or.inr ?_, ?_, ?_, by simp⟩
        · simp [gRemove, hidn, OwnerMap.read, OwnerMap.set, OwnerMap.del, hsen]
        · intro a rest heq
          exact absurd heq (by simp)
        · intro x hx
          rcases eq_or_ne x id with rfl | hne
          · simp [gRemove, hidn, OwnerMap.read, OwnerMap.set, OwnerMap.del, hsen]
          · have h0 := hout x (by simp [hne])
            simp [gRemove, hidn, OwnerMap.read, OwnerMap.set, OwnerMap.del, hne, h0]
      | cons b l2' =>
        have hidn : g (some id) = some ⟨none, some b⟩ := hidnode
        have hbi : b ≠ id := fun hh => hid2 (by simp [hh])
        have hbl2 : b ∉ l2' := (List.nodup_cons.mp hndl2).1
        have hsen : g none = some ⟨lastIn none (id :: b :: l2'), some id⟩ := hsent id (b :: l2') rfl
        have hbnode : g (some b) = some ⟨some id, headOr l2' none⟩ := hsegl2.1
        have hL : lastIn none (id :: b :: l2') = lastIn none (b :: l2') := by
          rw [lastIn_cons]
          exact lastIn_congr (by simp) _ _
        have hfix : ∀ x : KittyIndex, x ≠ id → x ≠ b →
            (gRemove g id) (some x) = g (some x) := by
          intro x h1 h2
          simp [gRemove, hidn, OwnerMap.read, OwnerMap.set, OwnerMap.del, h1, h2]
        rw [List.nil_append]
        refine ⟨?_, fun hh => absurd hh (by simp), ?_, ?_, hndl2⟩
        · refine ⟨?_, ?_⟩
          · simp [gRemove, hidn, OwnerMap.read, OwnerMap.set, OwnerMap.del, hbnode, hbi]
          · refine seg_congr (fun x hx => ?_) hsegl2.2
            exact hfix x (fun hh => hid2 (by simp [hh ▸ hx])) (fun hh => hbl2 (hh ▸ hx))
        · intro a2 rest2 heq
          obtain ⟨rfl, rfl⟩ := List.cons.inj heq
          rw [← hL]
          simp [gRemove, hidn, OwnerMap.read, OwnerMap.set, OwnerMap.del, hsen, Ne.symm hbi]
        · intro x hx
          rcases eq_or_ne x id with rfl | hne
          · simp [gRemove, hidn, OwnerMap.read, OwnerMap.set, OwnerMap.del]
          · have hxb : x ≠ b := fun hh => hx (by simp [hh])
            have h0 := hout x (fun hmm => by
              rcases List.mem_cons.mp hmm with rfl | hmm2
              · exact hne rfl
              · exact hx hmm2)
            rw [hfix x hne hxb]
            exact h0
    · rw [List.concat_eq_append] at hl1
      subst hl1
      have hpti : pt ≠ id := fun hh => hid1 (by simp [hh])
      have hptl1 : pt ∉ l1' := by
        have := List.nodup_append.mp hndl1
        exact fun hh => this.2.2 hh (by simp)
      have hS := (seg_append g none _ l1' [pt]).mp hsegl1
      have hpt : g (some pt) = some ⟨lastIn none l1', some id⟩ := by
        have := (seg_single g _ _ _).mp hS.2
        exact this
      have hidl1' : id ∉ l1' := fun hh => hid1 (by simp [hh])
      obtain ⟨a, rest, hcons⟩ := List.exists_cons_of_ne_nil
        (show l1' ++ [pt] ≠ [] by simp)
      have hal1 : a ∈ l1' ++ [pt] := by rw [hcons]; simp
      cases l2 with
      | nil =>
        have hidn : g (some id) = some ⟨some pt, none⟩ := by
          have := hidnode
          rwa [lastIn_concat] at this
        have hll : (l1' ++ [pt]) ++ id :: ([] : List KittyIndex) = a :: (rest ++ [id]) := by
          rw [hcons]
          rfl
        have hsen : g none = some ⟨some id, some a⟩ := by
          have h0 := hsent a (rest ++ [id]) hll
          rwa [show lastIn none ((l1' ++ [pt]) ++ id :: ([] : List KittyIndex)) = some id by
            exact lastIn_concat none (l1' ++ [pt]) id] at h0
        have hfix : ∀ x : KittyIndex, x ≠ id → x ≠ pt →
            (gRemove g id) (some x) = g (some x) := by
          intro x h1 h2
          simp [gRemove, hidn, OwnerMap.read, OwnerMap.set, OwnerMap.del, h1, h2]
        rw [List.append_nil]
        refine ⟨?_, fun hh => absurd hh (by simp), ?_, ?_, hndl1⟩
        · rw [seg_append]
          refine ⟨?_, ?_⟩
          · refine seg_congr (fun x hx => ?_) hS.1
            exact hfix x (fun hh => hidl1' (hh ▸ hx)) (fun hh => hptl1 (hh ▸ hx))
          · rw [seg_single]
            simp [gRemove, hidn, OwnerMap.read, OwnerMap.set, OwnerMap.del, hpt, hpti]
        · intro a2 rest2 heq
          have : a = a2 := (List.cons.inj (hcons ▸ heq)).1
          subst this
          rw [lastIn_concat]
          simp [gRemove, hidn, OwnerMap.read, OwnerMap.set, OwnerMap.del, hsen, hpti]
        · intro x hx
          rcases eq_or_ne x id with rfl | hne
          · simp [gRemove, hidn, OwnerMap.read, OwnerMap.set, OwnerMap.del]
          · have hxpt : x ≠ pt := fun hh => hx (by simp [hh])
            have h0 := hout x (fun hmm => by
              rcases List.mem_append.mp hmm with hmm1 | hmm2
              · exact hx hmm1
              · exact hne (by simpa using hmm2))
            rw [hfix x hne hxpt]
            exact h0
      | cons b l2' =>
        have hidn : g (some id) = some ⟨some pt, some b⟩ := by
          have := hidnode
          rwa [lastIn_concat] at this
        have hbi : b ≠ id := fun hh => hid2 (by simp [hh])
        have hbl2 : b ∉ l2' := (List.nodup_cons.mp hndl2).1
        have hbpt : b ≠ pt := fun hh => hd12 pt (by simp) (by simp [← hh])
        have hbnode : g (some b) = some ⟨some id, headOr l2' none⟩ := hsegl2.1
        have hll : (l1' ++ [pt]) ++ id :: b :: l2' = a :: (rest ++ id :: b :: l2') := by
          rw [hcons]
          rfl
        have hsen : g none =
            some ⟨lastIn none ((l1' ++ [pt]) ++ id :: b :: l2'), some a⟩ :=
          hsent a (rest ++ id :: b :: l2') hll
        have hL : lastIn none ((l1' ++ [pt]) ++ id :: b :: l2') =
            lastIn none ((l1' ++ [pt]) ++ b :: l2') := by
          rw [lastIn_append none (l1' ++ [pt]) (id :: b :: l2'),
            lastIn_append none (l1' ++ [pt]) (b :: l2'), lastIn_cons]
          exact @lastIn_congr (b :: l2') (by simp) _ _
        have hfix : ∀ x : KittyIndex, x ≠ id → x ≠ pt → x ≠ b →
            (gRemove g id) (some x) = g (some x) := by
          intro x h1 h2 h3
          simp [gRemove, hidn, OwnerMap.read, OwnerMap.set, OwnerMap.del, h1, h2, h3]
        refine ⟨?_, fun hh => absurd hh (by simp), ?_, ?_, hndL⟩
        · rw [seg_append]
          refine ⟨?_, ?_⟩
          · rw [seg_append]
            refine ⟨?_, ?_⟩
            · refine seg_congr (fun x hx => ?_) hS.1
              exact hfix x (fun hh => hidl1' (hh ▸ hx)) (fun hh => hptl1 (hh ▸ hx))
                (fun hh => hd12 x (by simp [hx]) (by simp [hh]))
            · rw [seg_single]
              simp [gRemove, hidn, OwnerMap.read, OwnerMap.set, OwnerMap.del, hpt, hpti,
                hbpt, Ne.symm hbpt, headOr]
          · rw [lastIn_concat]
            refine ⟨?_, ?_⟩
            · simp [gRemove, hidn, OwnerMap.read, OwnerMap.set, OwnerMap.del, hbnode,
                hbi, hbpt]
            · refine seg_congr (fun x hx => ?_) hsegl2.2
              exact hfix x (fun hh => hid2 (by simp [hh ▸ hx])) (fun hh => hd12 pt (by simp)
                (by simp [← hh, hx])) (fun hh => hbl2 (hh ▸ hx))
        · intro a2 rest2 heq
          have ha2 : a = a2 := by
            have h1 : (l1' ++ [pt]) ++ b :: l2' = a :: (rest ++ b :: l2') := by
              rw [hcons]
              rfl
            exact (List.cons.inj (h1 ▸ heq)).1
          subst ha2
          rw [← hL]
          have hnone : (gRemove g id) none = g none := by
            simp [gRemove, hidn, OwnerMap.read, OwnerMap.set, OwnerMap.del]
          rw [hnone, hsen]
        · intro x hx
          rcases eq_or_ne x id with rfl | hne
          · simp [gRemove, hidn, OwnerMap.read, OwnerMap.set, OwnerMap.del]
          · have hxpt : x ≠ pt := fun hh => hx (by simp [hh])
            have hxb : x ≠ b := fun hh => hx (by simp [hh])
            have h0 : g (some x) = none := by
              refine hout x ?_
              simp only [List.mem_append, List.mem_cons, List.mem_singleton] at hx ⊢
              push_neg at hx ⊢
              exact ⟨hx.1, hne, hx.2⟩
            rw [hfix x hne hxpt hxb]
            exact h0
  · have hnode : g (some id) = none := represents_not_mem h hmem
    have heq : gRemove g id = g := by simp [gRemove, hnode]
    rw [heq, List.erase_of_not_mem hmem]
    exact h

theorem mapInsert_self {α : Type} (m : Nat → Option α) (k : Nat) (v : α) :
    mapInsert m k v k = some v := by
  simp [mapInsert]

theorem mapInsert_other {α : Type} (m : Nat → Option α) {k k2 : Nat} (v : α) (h : k2 ≠ k) :
    mapInsert m k v k2 = m k2 := by
  simp [mapInsert, h]

theorem listAppend_self (m : OwnedMap) (o : AccountId) (id : KittyIndex) :
    listAppend m o id o = gAppend (m o) id := by
  simp [listAppend]

theorem listAppend_other (m : OwnedMap) {o o2 : AccountId} (id : KittyIndex) (h : o2 ≠ o) :
    listAppend m o id o2 = m o2 := by
  simp [listAppend, h]

theorem listRemove_self (m : OwnedMap) (o : AccountId) (id : KittyIndex) :
    listRemove m o id o = gRemove (m o) id := by
  simp [listRemove]

theorem listRemove_other (m : OwnedMap) {o o2 : AccountId} (id : KittyIndex) (h : o2 ≠ o) :
    listRemove m o id o2 = m o2 := by
  simp [listRemove, h]

@[simp] theorem insert_kitty_kitties (s : State) (o : AccountId) (kid : KittyIndex) (k : Kitty) :
    (insert_kitty s o kid k).kitties = mapInsert s.kitties kid k := rfl

@[simp] theorem insert_kitty_count (s : State) (o : AccountId) (kid : KittyIndex) (k : Kitty) :
    (insert_kitty s o kid k).kittiesCount = kid + 1 := rfl

@[simp] theorem insert_kitty_owners (s : State) (o : AccountId) (kid : KittyIndex) (k : Kitty) :
    (insert_kitty s o kid k).kittyOwners = mapInsert s.kittyOwners kid o := rfl

@[simp] theorem insert_kitty_owned (s : State) (o : AccountId) (kid : KittyIndex) (k : Kitty) :
    (insert_kitty s o kid k).ownedKitties = listAppend s.ownedKitties o kid := rfl

@[simp] theorem insert_kitty_prices (s : State) (o : AccountId) (kid : KittyIndex) (k : Kitty) :
    (insert_kitty s o kid k).kittyPrices = s.kittyPrices := rfl

@[simp] theorem insert_kitty_balances (s : State) (o : AccountId) (kid : KittyIndex) (k : Kitty) :
    (insert_kitty s o kid k).balances = s.balances := rfl

@[simp] theorem insert_kitty_events (s : State) (o : AccountId) (kid : KittyIndex) (k : Kitty) :
    (insert_kitty s o kid k).events = s.events := rfl

@[simp] theorem do_transfer_kitties (s : State) (a b : AccountId) (id : KittyIndex) :
    (do_transfer s a b id).kitties = s.kitties := rfl

@[simp] theorem do_transfer_count (s : State) (a b : AccountId) (id : KittyIndex) :
    (do_transfer s a b id).kittiesCount = s.kittiesCount := rfl

@[simp] theorem do_transfer_owners (s : State) (a b : AccountId) (id : KittyIndex) :
    (do_transfer s a b id).kittyOwners = mapInsert s.kittyOwners id b := rfl

@[simp] theorem do_transfer_owned (s : State) (a b : AccountId) (id : KittyIndex) :
    (do_transfer s a b id).ownedKitties = listAppend (listRemove s.ownedKitties a id) b id := rfl

@[simp] theorem do_transfer_prices (s : State) (a b : AccountId) (id : KittyIndex) :
    (do_transfer s a b id).kittyPrices = s.kittyPrices := rfl

@[simp] theorem do_transfer_balances (s : State) (a b : AccountId) (id : KittyIndex) :
    (do_transfer s a b id).balances = s.balances := rfl

@[simp] theorem do_transfer_events (s : State) (a b : AccountId) (id : KittyIndex) :
    (do_transfer s a b id).events = s.events := rfl

theorem ownedRel_count_not_mem {s : State} (hInv : Inv s) {o : AccountId}
    {l : List KittyIndex} (hrel : OwnedRel s o l) : s.kittiesCount ∉ l := by
  intro hmm
  have h1 := (hrel.2 _).mp hmm
  have h2 := (hInv.2.1 s.kittiesCount).mp (by rw [h1]; rfl)
  exact lt_irrefl _ h2

theorem inv_insert_kitty {s : State} (hInv : Inv s) (owner : AccountId) (kitty : Kitty) :
    Inv (insert_kitty s owner s.kittiesCount kitty) := by
  obtain ⟨hk, ho, hl⟩ := hInv
  refine ⟨?_, ?_, ?_⟩
  · intro id
    rw [insert_kitty_kitties, insert_kitty_count]
    rcases eq_or_ne id s.kittiesCount with rfl | hne
    · simp [mapInsert_self]
    · rw [mapInsert_other _ _ hne, hk id]
      exact ⟨fun h2 => Nat.lt_succ_of_lt h2, fun h2 => lt_of_le_of_ne (Nat.lt_succ_iff.mp h2) hne⟩
  · intro id
    rw [insert_kitty_owners, insert_kitty_count]
    rcases eq_or_ne id s.kittiesCount with rfl | hne
    · simp [mapInsert_self]
    · rw [mapInsert_other _ _ hne, ho id]
      exact ⟨fun h2 => Nat.lt_succ_of_lt h2, fun h2 => lt_of_le_of_ne (Nat.lt_succ_iff.mp h2) hne⟩
  · intro o
    obtain ⟨l, hrep, hmem⟩ := hl o
    have hnm : s.kittiesCount ∉ l := ownedRel_count_not_mem ⟨hk, ho, hl⟩ ⟨hrep, hmem⟩
    rcases eq_or_ne o owner with rfl | hne
    · refine ⟨l ++ [s.kittiesCount], ?_, ?_⟩
      · rw [insert_kitty_owned, listAppend_self]
        exact represents_append hrep hnm
      · intro x
        rw [insert_kitty_owners]
        rcases eq_or_ne x s.kittiesCount with rfl | hxe
        · simp [mapInsert_self]
        · rw [mapInsert_other _ _ hxe]
          simp only [List.mem_append, List.mem_singleton]
          constructor
          · rintro (hx | rfl)
            · exact (hmem x).mp hx
            · exact absurd rfl hxe
          · intro hx
            exact Or.inl ((hmem x).mpr hx)
    · refine ⟨l, ?_, ?_⟩
      · rw [insert_kitty_owned, listAppend_other _ _ hne]
        exact hrep
      · intro x
        rw [insert_kitty_owners]
        rcases eq_or_ne x s.kittiesCount with rfl | hxe
        · rw [mapInsert_self]
          constructor
          · intro hx
            exact absurd hx hnm
          · intro hx
            exact absurd (Option.some.inj hx).symm hne
        · rw [mapInsert_other _ _ hxe]
          exact hmem x

theorem inv_do_transfer {s : State} (hInv : Inv s) {ow : AccountId} {id : KittyIndex}
    (how : s.kittyOwners id = some ow) (receiver : AccountId) :
    Inv (do_transfer s ow receiver id) := by
  obtain ⟨hk, ho, hl⟩ := hInv
  have hidlt : id < s.kittiesCount := (ho id).mp (by rw [how]; rfl)
  refine ⟨?_, ?_, ?_⟩
  · intro i
    rw [do_transfer_kitties, do_transfer_count]
    exact hk i
  · intro i
    rw [do_transfer_owners, do_transfer_count]
    rcases eq_or_ne i id with rfl | hne
    · rw [mapInsert_self]
      simpa using hidlt
    · rw [mapInsert_other _ _ hne]
      exact ho i
  · intro o
    obtain ⟨low, hrepow, hmemow⟩ := hl ow
    have hidow : id ∈ low := (hmemow id).mpr how
    rcases eq_or_ne receiver ow with rfl | hro
    · -- transfer to self: remove then append on the same owner slice
      rcases eq_or_ne o receiver with rfl | hne
      · refine ⟨low.erase id ++ [id], ?_, ?_⟩
        · rw [do_transfer_owned, listAppend_self, listRemove_self]
          refine represents_append (represents_remove hrepow id) ?_
          intro hmm
          exact absurd ((List.Nodup.mem_erase_iff hrepow.2.2.2.2).mp hmm).1 (by simp)
        · intro x
          rw [do_transfer_owners]
          simp only [List.mem_append, List.mem_singleton,
            List.Nodup.mem_erase_iff hrepow.2.2.2.2]
          rcases eq_or_ne x id with rfl | hxe
          · simp [mapInsert_self]
          · rw [mapInsert_other _ _ hxe]
            constructor
            · rintro (⟨-, hx⟩ | rfl)
              · exact (hmemow x).mp hx
              · exact absurd rfl hxe
            · intro hx
              exact Or.inl ⟨hxe, (hmemow x).mpr hx⟩
      · obtain ⟨l, hrep, hmem⟩ := hl o
        refine ⟨l, ?_, ?_⟩
        · rw [do_transfer_owned, listAppend_other _ _ hne, listRemove_other _ _ hne]
          exact hrep
        · intro x
          rw [do_transfer_owners]
          rcases eq_or_ne x id with rfl | hxe
          · rw [mapInsert_self]
            constructor
            · intro hx
              have := (hmem x).mp hx
              rw [how] at this
              exact absurd (Option.some.inj this) (fun hh => hne hh.symm)
            · intro hx
              exact absurd (Option.some.inj hx).symm hne
          · rw [mapInsert_other _ _ hxe]
            exact hmem x
    · -- transfer to a different owner
      obtain ⟨lr, hrepr, hmemr⟩ := hl receiver
      have hidr : id ∉ lr := by
        intro hmm
        have := (hmemr id).mp hmm
        rw [how] at this
        exact hro (Option.some.inj this).symm
      rcases eq_or_ne o ow with rfl | hnow
      · refine ⟨low.erase id, ?_, ?_⟩
        · rw [do_transfer_owned, listAppend_other _ _ (fun hh => hro hh.symm),
            listRemove_self]
          exact represents_remove hrepow id
        · intro x
          rw [do_transfer_owners]
          rw [List.Nodup.mem_erase_iff hrepow.2.2.2.2]
          rcases eq_or_ne x id with rfl | hxe
          · rw [mapInsert_self]
            constructor
            · rintro ⟨hc, -⟩
              exact absurd rfl hc
            · intro hx
              exact absurd (Option.some.inj hx) hro
          · rw [mapInsert_other _ _ hxe]
            constructor
            · rintro ⟨-, hx⟩
              exact (hmemow x).mp hx
            · intro hx
              exact ⟨hxe, (hmemow x).mpr hx⟩
      · rcases eq_or_ne o receiver with rfl | hner
        · refine ⟨lr ++ [id], ?_, ?_⟩
          · rw [do_transfer_owned, listAppend_self, listRemove_other _ _ hnow]
            exact represents_append hrepr hidr
          · intro x
            rw [do_transfer_owners]
            simp only [List.mem_append, List.mem_singleton]
            rcases eq_or_ne x id with rfl | hxe
            · simp [mapInsert_self]
            · rw [mapInsert_other _ _ hxe]
              constructor
              · rintro (hx | rfl)
                · exact (hmemr x).mp hx
                · exact absurd rfl hxe
              · intro hx
                exact Or.inl ((hmemr x).mpr hx)
        · obtain ⟨l, hrep, hmem⟩ := hl o
          refine ⟨l, ?_, ?_⟩
          · rw [do_transfer_owned, listAppend_other _ _ hner, listRemove_other _ _ hnow]
            exact hrep
          · intro x
            rw [do_transfer_owners]
            rcases eq_or_ne x id with rfl | hxe
            · rw [mapInsert_self]
              constructor
              · intro hx
                have := (hmem x).mp hx
                rw [how] at this
                exact absurd (Option.some.inj this).symm hnow
              · intro hx
                exact absurd (Option.some.inj hx).symm hner
            · rw [mapInsert_other _ _ hxe]
              exact hmem x

theorem inv_of_parts {s s2 : State} (hInv : Inv s) (h1 : s2.kitties = s.kitties)
    (h2 : s2.kittiesCount = s.kittiesCount) (h3 : s2.kittyOwners = s.kittyOwners)
    (h4 : s2.ownedKitties = s.ownedKitties) : Inv s2 := by
  obtain ⟨hk, ho, hl⟩ := hInv
  refine ⟨?_, ?_, ?_⟩
  · intro id
    rw [h1, h2]
    exact hk id
  · intro id
    rw [h3, h2]
    exact ho id
  · intro o
    obtain ⟨l, hrep, hmem⟩ := hl o
    exact ⟨l, by rw [h4]; exact hrep, fun id => by rw [h3]; exact hmem id⟩

theorem inv_create (maxId : Nat) {s : State} (hInv : Inv s) (c : AccountId) (d : List Nat) :
    Inv (create maxId s c d).1 := by
  by_cases hc : s.kittiesCount = maxId
  · simpa [create, next_kitty_id, hc] using hInv
  · refine inv_of_parts (inv_insert_kitty hInv c ⟨d⟩) ?_ ?_ ?_ ?_ <;>
      simp [create, next_kitty_id, hc]

theorem inv_do_breed_state (maxId : Nat) {s : State} (hInv : Inv s) (c : AccountId)
    (i1 i2 : KittyIndex) (sel : List Nat) : Inv (do_breed maxId s c i1 i2 sel).1 := by
  cases h1 : s.kitties i1 with
  | none => simpa [do_breed, h1] using hInv
  | some k1 =>
    cases h2 : s.kitties i2 with
    | none => simpa [do_breed, h1, h2] using hInv
    | some k2 =>
      by_cases h3 : i1 = i2
      · simpa [do_breed, h1, h2, h3] using hInv
      · by_cases h4 : s.kittyOwners i1 = some c
        · by_cases h5 : s.kittyOwners i2 = some c
          · by_cases h6 : s.kittiesCount = maxId
            · simpa [do_breed, next_kitty_id, h1, h2, h3, h4, h5, h6] using hInv
            · refine inv_of_parts (inv_insert_kitty hInv c ⟨childDna k1.dna k2.dna sel⟩)
                ?_ ?_ ?_ ?_ <;> simp [do_breed, next_kitty_id, h1, h2, h3, h4, h5, h6]
          · simpa [do_breed, h1, h2, h3, h4, h5] using hInv
        · simpa [do_breed, h1, h2, h3, h4] using hInv

theorem inv_breed (maxId : Nat) {s : State} (hInv : Inv s) (c : AccountId)
    (i1 i2 : KittyIndex) (sel : List Nat) : Inv (breed maxId s c i1 i2 sel).1 := by
  have hd := inv_do_breed_state maxId hInv c i1 i2 sel
  cases hb : do_breed maxId s c i1 i2 sel with
  | mk s1 r =>
    rw [hb] at hd
    cases r with
    | error e => simpa [breed, hb] using hd
    | ok newId => refine inv_of_parts hd ?_ ?_ ?_ ?_ <;> simp [breed, hb]

theorem inv_transfer {s : State} (hInv : Inv s) (c r : AccountId) (id : KittyIndex) :
    Inv (transfer s c r id).1 := by
  by_cases hc : (s.ownedKitties c (some id)).isSome = true
  · obtain ⟨l, hrep, hmem⟩ := hInv.2.2 c
    have hidl : id ∈ l := (represents_mem_iff hrep id).mpr hc
    have how : s.kittyOwners id = some c := (hmem id).mp hidl
    refine inv_of_parts (inv_do_transfer hInv how r) ?_ ?_ ?_ ?_ <;>
      simp [transfer, hc, do_transfer]
  · rw [Bool.not_eq_true] at hc
    simpa [transfer, hc] using hInv

theorem inv_ask {s : State} (hInv : Inv s) (c : AccountId) (id : KittyIndex)
    (p : Option Nat) : Inv (ask s c id p).1 := by
  by_cases hc : (s.ownedKitties c (some id)).isSome = true
  · cases p with
    | some pr => refine inv_of_parts hInv ?_ ?_ ?_ ?_ <;> simp [ask, hc]
    | none => refine inv_of_parts hInv ?_ ?_ ?_ ?_ <;> simp [ask, hc]
  · rw [Bool.not_eq_true] at hc
    simpa [ask, hc] using hInv

theorem inv_buy {s : State} (hInv : Inv s) (c : AccountId) (id : KittyIndex) (p : Nat) :
    Inv (buy s c id p).1 := by
  cases how : s.kittyOwners id with
  | none => simpa [buy, how] using hInv
  | some ow =>
    cases hp : s.kittyPrices id with
    | none => simpa [buy, how, hp] using hInv
    | some kp =>
      by_cases hlt : p < kp
      · simpa [buy, how, hp, hlt] using hInv
      · by_cases hb : kp ≤ s.balances c
        · refine inv_of_parts (inv_do_transfer hInv how c) ?_ ?_ ?_ ?_ <;>
            simp [buy, how, hp, hlt, currencyTransfer, hb, do_transfer]
        · simpa [buy, how, hp, hlt, currencyTransfer, hb] using hInv

theorem inv_initState (bal : AccountId → Nat) : Inv (initState bal) := by
  refine ⟨fun id => by simp [initState], fun id => by simp [initState], fun o => ?_⟩
  refine ⟨[], ⟨trivial, fun _ => Or.inl rfl, fun a rest hh => absurd hh (by simp),
    fun x _ => rfl, List.nodup_nil⟩, fun id => by simp [initState]⟩

theorem inv_applyOp (maxId : Nat) {s : State} (hInv : Inv s) (op : Op) :
    Inv (applyOp maxId s op) := by
  cases op with
  | create c d => exact inv_create maxId hInv c d
  | breed c i1 i2 sel => exact inv_breed maxId hInv c i1 i2 sel
  | transfer c r i => exact inv_transfer hInv c r i
  | ask c i p => exact inv_ask hInv c i p
  | buy c i p => exact inv_buy hInv c i p

theorem inv_applyOps (maxId : Nat) {s : State} (hInv : Inv s) (ops : List Op) :
    Inv (applyOps maxId s ops) := by
  induction ops generalizing s with
  | nil => exact hInv
  | cons op ops ih => exact ih (inv_applyOp maxId hInv op)

theorem traverseNext_of_seg {g : OwnerMap} :
    ∀ (l : List KittyIndex) (cur : Option KittyIndex) (fuel : Nat), l.length ≤ fuel →
      Seg g cur l none → (g.read cur).next = headOr l none → traverseNext g fuel cur = l := by
  intro l
  induction l with
  | nil =>
    intro cur fuel _ _ hnext
    cases fuel with
    | zero => rfl
    | succ n =>
      rw [traverseNext, hnext]
      rfl
  | cons a rest ih =>
    intro cur fuel hlen hseg hnext
    cases fuel with
    | zero => simp at hlen
    | succ n =>
      obtain ⟨h1, h2⟩ := hseg
      have hnext2 : (g.read (some a)).next = headOr rest none := by
        simp [OwnerMap.read, h1]
      have hlen2 : rest.length ≤ n := by
        simp at hlen
        omega
      rw [traverseNext, hnext]
      show a :: traverseNext g n (some a) = a :: rest
      rw [ih (some a) n hlen2 h2 hnext2]

theorem represents_sentinel_next {g : OwnerMap} {l : List KittyIndex}
    (h : Represents g l) : (g.read none).next = headOr l none := by
  cases l with
  | nil => rcases h.2.1 rfl with h0 | h0 <;> simp [OwnerMap.read, h0, headOr]
  | cons a rest => simp [OwnerMap.read, h.2.2.1 a rest rfl, headOr]

theorem represents_traverseNext {g : OwnerMap} {l : List KittyIndex}
    (h : Represents g l) (fuel : Nat) (hf : l.length ≤ fuel) :
    traverseNext g fuel none = l :=
  traverseNext_of_seg l none fuel hf h.1 (represents_sentinel_next h)

theorem represents_flip {g : OwnerMap} {l : List KittyIndex} (h : Represents g l) :
    Represents (flipMap g) l.reverse := by
  obtain ⟨hseg, hemp, hsent, hout, hnd⟩ := h
  refine ⟨seg_flip hseg, ?_, ?_, ?_, List.nodup_reverse.mpr hnd⟩
  · intro hrev
    have hl : l = [] := by simpa using hrev
    rcases hemp hl with h0 | h0
    · exact Or.inl (by simp [flipMap, h0])
    · exact Or.inr (by simp [flipMap, h0, flipItem])
  · intro a rest hrev
    have hlne : l ≠ [] := by
      intro hh
      rw [hh] at hrev
      exact List.noConfusion hrev
    obtain ⟨b, L, hbl⟩ := List.exists_cons_of_ne_nil hlne
    have hsen := hsent b L hbl
    have hlconcat : l = rest.reverse ++ [a] := by
      have := congrArg List.reverse hrev
      simpa using this
    rw [flipMap, hsen]
    have e1 : lastIn none l.reverse = some b := by
      rw [lastIn_reverse, hbl]
      rfl
    have e2 : lastIn none l = some a := by
      rw [hlconcat, lastIn_concat]
    rw [e1, e2]
    rfl
  · intro x hx
    have : x ∉ l := fun hh => hx (List.mem_reverse.mpr hh)
    simp [flipMap, hout x this]

theorem represents_traversePrev {g : OwnerMap} {l : List KittyIndex}
    (h : Represents g l) (fuel : Nat) (hf : l.length ≤ fuel) :
    traversePrev g fuel none = l.reverse := by
  rw [traversePrev_eq_flip]
  exact represents_traverseNext (represents_flip h) fuel (by simpa using hf)

theorem length_le_of_nodup_lt {l : List KittyIndex} (hnd : l.Nodup) (n : Nat)
    (hlt : ∀ x ∈ l, x < n) : l.length ≤ n := by
  have hsub : l ⊆ List.range n := fun x hx => List.mem_range.mpr (hlt x hx)
  simpa using (hnd.subperm hsub).length_le

theorem inv_indexConsistent {s : State} (hInv : Inv s) (o : AccountId) :
    IndexConsistent s o := by
  have hlist : ∀ o2 : AccountId, ∃ l, OwnedRel s o2 l ∧
      list_owned s o2 s.kittiesCount = l := by
    intro o2
    obtain ⟨l, hrep, hmem⟩ := hInv.2.2 o2
    have hlen : l.length ≤ s.kittiesCount := by
      refine length_le_of_nodup_lt hrep.2.2.2.2 _ (fun x hx => ?_)
      exact (hInv.2.1 x).mp (by rw [(hmem x).mp hx]; rfl)
    exact ⟨l, ⟨hrep, hmem⟩, represents_traverseNext hrep _ hlen⟩
  obtain ⟨l, ⟨hrep, hmem⟩, htrav⟩ := hlist o
  have hlen : l.length ≤ s.kittiesCount := by
    refine length_le_of_nodup_lt hrep.2.2.2.2 _ (fun x hx => ?_)
    exact (hInv.2.1 x).mp (by rw [(hmem x).mp hx]; rfl)
  refine ⟨?_, ?_, ?_, ?_⟩
  · intro id
    rw [htrav]
    exact hmem id
  · rw [htrav]
    exact hrep.2.2.2.2
  · rw [htrav]
    exact represents_traversePrev hrep _ hlen
  · intro o2 id hid1 hid2
    obtain ⟨l2, ⟨hrep2, hmem2⟩, htrav2⟩ := hlist o2
    rw [htrav] at hid1
    rw [htrav2] at hid2
    have e1 := (hmem id).mp hid1
    have e2 := (hmem2 id).mp hid2
    rw [e1] at e2
    exact (Option.some.inj e2).symm

/-- Claim C1: after every sequence of the five mutating operations from
the empty state, each owner's index is consistent with the owner-pointer
map — forward traversal from the sentinel enumerates exactly the ids
owned by that owner, each exactly once, backward traversal is the exact
reverse, and no id appears under two owners. -/
theorem c1_ownership_index_consistent (bal : AccountId → Nat) (maxId : Nat)
    (ops : List Op) (s : State) (hs : s = applyOps maxId (initState bal) ops)
    (o : AccountId) : IndexConsistent s o := by
  subst hs
  exact inv_indexConsistent (inv_applyOps maxId (inv_initState bal) ops) o

/-- Witness for C1 at a concrete run: create two kitties for account 1,
transfer one to account 2. -/
theorem c1_witness :
    IndexConsistent
      (applyOps 100 (initState balFix)
        [Op.create 1 dnaFix, Op.create 1 dnaFix2, Op.transfer 1 2 0]) 1 :=
  c1_ownership_index_consistent balFix 100
    [Op.create 1 dnaFix, Op.create 1 dnaFix2, Op.transfer 1 2 0] _ rfl 1

theorem testBit_255 (j : Nat) : Nat.testBit 255 j = decide (j < 8) := by
  have h : (255 : Nat) = 2 ^ 8 - 1 := by norm_num
  rw [h, Nat.testBit_two_pow_sub_one]

theorem testBit_ge_8 {d : Nat} (hd : d < 256) {j : Nat} (hj : 8 ≤ j) :
    d.testBit j = false := by
  have h2 : (256 : Nat) ≤ 2 ^ j := by
    calc (256 : Nat) = 2 ^ 8 := by norm_num
    _ ≤ 2 ^ j := Nat.pow_le_pow_right (by norm_num) hj
  exact Nat.testBit_lt_two_pow (lt_of_lt_of_le hd h2)

theorem combine_dna_testBit (d1 d2 sel : Nat) (j : Nat) (hj : j < 8) :
    (combine_dna d1 d2 sel).testBit j =
      if sel.testBit j then d1.testBit j else d2.testBit j := by
  simp only [combine_dna, Nat.testBit_lor, Nat.testBit_land, Nat.testBit_xor, testBit_255]
  rw [decide_eq_true hj]
  cases h : sel.testBit j <;> simp [h]

theorem combine_dna_self (d sel : Nat) (hd : d < 256) : combine_dna d d sel = d := by
  apply Nat.eq_of_testBit_eq
  intro j
  by_cases hj : j < 8
  · rw [combine_dna_testBit d d sel j hj]
    cases sel.testBit j <;> rfl
  · push_neg at hj
    rw [testBit_ge_8 hd hj]
    simp [combine_dna, Nat.testBit_lor, Nat.testBit_land, testBit_ge_8 hd hj]

theorem combine_dna_all_ones (d1 d2 : Nat) (hd1 : d1 < 256) : combine_dna d1 d2 255 = d1 := by
  apply Nat.eq_of_testBit_eq
  intro j
  by_cases hj : j < 8
  · rw [combine_dna_testBit d1 d2 255 j hj, testBit_255, decide_eq_true hj]
    rfl
  · push_neg at hj
    rw [testBit_ge_8 hd1 hj]
    simp [combine_dna, Nat.testBit_lor, Nat.testBit_land, Nat.testBit_xor, testBit_255,
      decide_eq_false (by omega : ¬ j < 8), testBit_ge_8 hd1 hj]

theorem combine_dna_all_zeros (d1 d2 : Nat) (hd2 : d2 < 256) : combine_dna d1 d2 0 = d2 := by
  apply Nat.eq_of_testBit_eq
  intro j
  by_cases hj : j < 8
  · rw [combine_dna_testBit d1 d2 0 j hj]
    simp [Nat.zero_testBit]
  · push_neg at hj
    rw [testBit_ge_8 hd2 hj]
    simp [combine_dna, Nat.testBit_lor, Nat.testBit_land, Nat.testBit_xor, testBit_255,
      decide_eq_false (by omega : ¬ j < 8), testBit_ge_8 hd2 hj, Nat.zero_testBit]

/-- Claim C10: `combine_dna` is a per-bit multiplexer, so two identical
parent bytes give that byte whatever the selector, an all-ones selector
byte gives parent 1's byte, and an all-zeros selector byte gives
parent 2's byte. -/
theorem c10_combine_dna_algebra (d d1 d2 sel : Nat) (hd : d < 256) (hd1 : d1 < 256)
    (hd2 : d2 < 256) :
    combine_dna d d sel = d ∧ combine_dna d1 d2 255 = d1 ∧ combine_dna d1 d2 0 = d2 :=
  ⟨combine_dna_self d sel hd, combine_dna_all_ones d1 d2 hd1, combine_dna_all_zeros d1 d2 hd2⟩

/-- Witness for C10 at the bytes 171, 205 and the selector 240. -/
theorem c10_witness :
    combine_dna 171 171 240 = 171 ∧ combine_dna 171 205 255 = 171 ∧
      combine_dna 171 205 0 = 205 :=
  c10_combine_dna_algebra 171 171 205 240 (by decide) (by decide) (by decide)

theorem childDna_getD (d1 d2 sel : List Nat) (i : Nat) (hi : i < 16) :
    (childDna d1 d2 sel).getD i 0 =
      combine_dna (d1.getD i 0) (d2.getD i 0) (sel.getD i 0) := by
  unfold childDna
  rw [List.getD_eq_getElem?_getD, List.getElem?_map, List.getElem?_range hi]
  rfl

/-- Claim C4: a successful breed stores a child whose DNA bytes are the
`combine_dna` multiplexer of the parents' bytes under the selector, and
bitwise each child bit is parent 1's bit where the selector bit is set
and parent 2's bit otherwise. -/
theorem c4_breed_child_dna (maxId : Nat) (s : State) (c : AccountId) (i1 i2 : KittyIndex)
    (sel : List Nat) (k1 k2 : Kitty) (h1 : s.kitties i1 = some k1)
    (h2 : s.kitties i2 = some k2) (s2 : State) (newId : KittyIndex)
    (hb : do_breed maxId s c i1 i2 sel = (s2, .ok newId)) :
    ∃ child : Kitty, s2.kitties newId = some child ∧
      (∀ i, i < 16 → child.dna.getD i 0 =
        combine_dna (k1.dna.getD i 0) (k2.dna.getD i 0) (sel.getD i 0)) ∧
      (∀ i, i < 16 → ∀ j, j < 8 →
        (child.dna.getD i 0).testBit j =
          if (sel.getD i 0).testBit j then (k1.dna.getD i 0).testBit j
          else (k2.dna.getD i 0).testBit j) := by
  simp only [do_breed, h1, h2] at hb
  by_cases h3 : i1 = i2
  · simp [h3] at hb
  · rw [if_neg h3] at hb
    by_cases h4 : s.kittyOwners i1 = some c
    · rw [if_neg (by simp [h4])] at hb
      by_cases h5 : s.kittyOwners i2 = some c
      · rw [if_neg (by simp [h5])] at hb
        unfold next_kitty_id at hb
        by_cases h6 : s.kittiesCount = maxId
        · simp [h6] at hb
        · rw [if_neg h6] at hb
          obtain ⟨hs2, hnew⟩ := Prod.mk.inj hb
          have hnewId : newId = s.kittiesCount := (Except.ok.inj hnew).symm
          refine ⟨⟨childDna k1.dna k2.dna sel⟩, ?_, ?_, ?_⟩
          · rw [← hs2, insert_kitty_kitties, hnewId]
            exact mapInsert_self _ _ _
          · intro i hi
            exact childDna_getD k1.dna k2.dna sel i hi
          · intro i hi j hj
            rw [childDna_getD k1.dna k2.dna sel i hi]
            exact combine_dna_testBit _ _ _ j hj
      · simp [h5] at hb
    · simp [h4] at hb

/-- Witness for C4: breed kitties 0 and 1 of account 1 in the two-kitty
fixture with a concrete selector. -/
theorem c4_witness :
    ∃ child : Kitty, (do_breed 100 sTwo 1 0 1 selFix).1.kitties 2 = some child ∧
      (∀ i, i < 16 → child.dna.getD i 0 =
        combine_dna ((Kitty.mk dnaFix).dna.getD i 0) ((Kitty.mk dnaFix2).dna.getD i 0)
          (selFix.getD i 0)) ∧
      (∀ i, i < 16 → ∀ j, j < 8 →
        (child.dna.getD i 0).testBit j =
          if (selFix.getD i 0).testBit j then ((Kitty.mk dnaFix).dna.getD i 0).testBit j
          else ((Kitty.mk dnaFix2).dna.getD i 0).testBit j) :=
  c4_breed_child_dna 100 sTwo 1 0 1 selFix ⟨dnaFix⟩ ⟨dnaFix2⟩ (by decide) (by decide)
    (do_breed 100 sTwo 1 0 1 selFix).1 2 rfl

/-- Claim C5: `do_breed` checks its failure conditions in source order —
existence of `id1`, existence of `id2`, distinct parents, ownership of
`id1`, ownership of `id2`, then counter overflow — and the first failing
check determines the returned failure; the error kinds match the spec's
names. -/
theorem c5_breed_check_order (maxId : Nat) (s : State) (c : AccountId)
    (i1 i2 : KittyIndex) (sel : List Nat) :
    (s.kitties i1 = none →
      do_breed maxId s c i1 i2 sel = (s, .error KittyError.invalidKittyId1)) ∧
    ((s.kitties i1).isSome → s.kitties i2 = none →
      do_breed maxId s c i1 i2 sel = (s, .error KittyError.invalidKittyId2)) ∧
    ((s.kitties i1).isSome → (s.kitties i2).isSome → i1 = i2 →
      do_breed maxId s c i1 i2 sel = (s, .error KittyError.needsDifferentParent)) ∧
    ((s.kitties i1).isSome → (s.kitties i2).isSome → i1 ≠ i2 →
      s.kittyOwners i1 ≠ some c →
      do_breed maxId s c i1 i2 sel = (s, .error KittyError.notOwnerOfKitty1)) ∧
    ((s.kitties i1).isSome → (s.kitties i2).isSome → i1 ≠ i2 →
      s.kittyOwners i1 = some c → s.kittyOwners i2 ≠ some c →
      do_breed maxId s c i1 i2 sel = (s, .error KittyError.notOwnerOfKitty2)) ∧
    ((s.kitties i1).isSome → (s.kitties i2).isSome → i1 ≠ i2 →
      s.kittyOwners i1 = some c → s.kittyOwners i2 = some c → s.kittiesCount = maxId →
      do_breed maxId s c i1 i2 sel = (s, .error KittyError.kittiesCountOverflow)) ∧
    KittyError.invalidKittyId1.kind = ErrKind.assetNotFound ∧
    KittyError.invalidKittyId2.kind = ErrKind.assetNotFound ∧
    KittyError.needsDifferentParent.kind = ErrKind.sameParent ∧
    KittyError.notOwnerOfKitty1.kind = ErrKind.notOwner ∧
    KittyError.notOwnerOfKitty2.kind = ErrKind.notOwner ∧
    KittyError.kittiesCountOverflow.kind = ErrKind.counterOverflow := by
  refine ⟨?_, ?_, ?_, ?_, ?_, ?_, rfl, rfl, rfl, rfl, rfl, rfl⟩
  · intro h1
    simp [do_breed, h1]
  · intro h1 h2
    obtain ⟨k1, hk1⟩ := Option.isSome_iff_exists.mp h1
    simp [do_breed, hk1, h2]
  · intro h1 h2 h3
    obtain ⟨k1, hk1⟩ := Option.isSome_iff_exists.mp h1
    obtain ⟨k2, hk2⟩ := Option.isSome_iff_exists.mp h2
    simp [do_breed, hk1, hk2, h3]
  · intro h1 h2 h3 h4
    obtain ⟨k1, hk1⟩ := Option.isSome_iff_exists.mp h1
    obtain ⟨k2, hk2⟩ := Option.isSome_iff_exists.mp h2
    simp [do_breed, hk1, hk2, h3, h4]
  · intro h1 h2 h3 h4 h5
    obtain ⟨k1, hk1⟩ := Option.isSome_iff_exists.mp h1
    obtain ⟨k2, hk2⟩ := Option.isSome_iff_exists.mp h2
    simp [do_breed, hk1, hk2, h3, h4, h5]
  · intro h1 h2 h3 h4 h5 h6
    obtain ⟨k1, hk1⟩ := Option.isSome_iff_exists.mp h1
    obtain ⟨k2, hk2⟩ := Option.isSome_iff_exists.mp h2
    simp [do_breed, next_kitty_id, hk1, hk2, h3, h4, h5, h6]

/-- Witness for C5: in the two-kitty fixture, breeding kitty 0 with
itself fails with the same-parent error, and breeding a nonexistent id
with itself fails with the asset-not-found error. -/
theorem c5_witness :
    do_breed 100 sTwo 1 0 0 selFix = (sTwo, .error KittyError.needsDifferentParent) ∧
      do_breed 100 sTwo 1 5 5 selFix = (sTwo, .error KittyError.invalidKittyId1) :=
  ⟨(c5_breed_check_order 100 sTwo 1 0 0 selFix).2.2.1 (by decide) (by decide) rfl,
    (c5_breed_check_order 100 sTwo 1 5 5 selFix).1 (by decide)⟩

theorem gRemove_self (g : OwnerMap) (id : KittyIndex) : (gRemove g id) (some id) = none := by
  cases h : g (some id) with
  | none => simp [gRemove, h]
  | some item => simp [gRemove, h, OwnerMap.del]

theorem gAppend_isSome (g : OwnerMap) (id : KittyIndex) :
    ((gAppend g id) (some id)).isSome := by
  unfold gAppend
  cases (g.read none).prev with
  | none => simp [OwnerMap.set]
  | some tail => simp [OwnerMap.set]

/-- Claim C7: a successful transfer leaves the sale-price map — in
particular any listing of the transferred kitty — as well as the asset
records, the counter and the balances unchanged; only the owner pointer
of the transferred id and the index slices of the two parties change. -/
theorem c7_transfer_preserves_price (s : State) (c r : AccountId) (id : KittyIndex)
    (hown : (s.ownedKitties c (some id)).isSome) :
    (transfer s c r id).2 = none ∧
    (transfer s c r id).1.kittyPrices = s.kittyPrices ∧
    (transfer s c r id).1.kitties = s.kitties ∧
    (transfer s c r id).1.kittiesCount = s.kittiesCount ∧
    (transfer s c r id).1.balances = s.balances ∧
    (transfer s c r id).1.kittyOwners id = some r ∧
    (∀ id2, id2 ≠ id → (transfer s c r id).1.kittyOwners id2 = s.kittyOwners id2) ∧
    (∀ o, o ≠ c → o ≠ r → (transfer s c r id).1.ownedKitties o = s.ownedKitties o) := by
  refine ⟨?_, ?_, ?_, ?_, ?_, ?_, ?_, ?_⟩
  · simp [transfer, hown]
  · simp [transfer, hown, do_transfer]
  · simp [transfer, hown, do_transfer]
  · simp [transfer, hown, do_transfer]
  · simp [transfer, hown, do_transfer]
  · simp only [transfer, hown, if_pos]
    exact mapInsert_self _ _ _
  · intro id2 h2
    simp only [transfer, hown, if_pos]
    exact mapInsert_other _ _ h2
  · intro o h1 h2
    simp only [transfer, hown, if_pos]
    rw [do_transfer_owned, listAppend_other _ _ h2, listRemove_other _ _ h1]

/-- Witness for C7: transferring the listed kitty 0 from account 1 to
account 2 keeps its price entry of 10. -/
theorem c7_witness : (transfer sAsk 1 2 0).1.kittyPrices 0 = some 10 := by
  rw [(c7_transfer_preserves_price sAsk 1 2 0 (by decide)).2.1]
  decide

/-- Claim C8: `transfer` and `ask` fail — with the not-owner error and a
fully unchanged state — exactly when no index node exists at
`(caller, some id)`; on reachable states that node exists exactly when
the caller is the recorded owner of the id. -/
theorem c8_transfer_ask_not_owner (s : State) (c r : AccountId) (id : KittyIndex)
    (p : Option Nat) :
    ((transfer s c r id).2.isSome ↔ s.ownedKitties c (some id) = none) ∧
    ((ask s c id p).2.isSome ↔ s.ownedKitties c (some id) = none) ∧
    (s.ownedKitties c (some id) = none →
      transfer s c r id = (s, some KittyError.onlyOwnerCanTransfer) ∧
      ask s c id p = (s, some KittyError.onlyOwnerCanAsk)) ∧
    KittyError.onlyOwnerCanTransfer.kind = ErrKind.notOwner ∧
    KittyError.onlyOwnerCanAsk.kind = ErrKind.notOwner ∧
    (∀ bal maxId ops, s = applyOps maxId (initState bal) ops →
      ((s.ownedKitties c (some id)).isSome ↔ s.kittyOwners id = some c)) := by
  refine ⟨?_, ?_, ?_, rfl, rfl, ?_⟩
  · cases h : s.ownedKitties c (some id) with
    | none => simp [transfer, h]
    | some it => simp [transfer, h]
  · cases h : s.ownedKitties c (some id) with
    | none => simp [ask, h]
    | some it =>
      cases p with
      | none => simp [ask, h]
      | some pr => simp [ask, h]
  · intro h
    exact ⟨by simp [transfer, h], by cases p with
      | none => simp [ask, h]
      | some pr => simp [ask, h]⟩
  · intro bal maxId ops hs
    subst hs
    have hInv := inv_applyOps maxId (inv_initState bal) ops
    obtain ⟨l, hrep, hmem⟩ := hInv.2.2 c
    rw [← represents_mem_iff hrep id]
    exact hmem id

/-- Witness for C8: account 2 owns nothing in the one-kitty fixture, so
both its transfer and its ask of kitty 0 fail with the not-owner
errors and leave the state untouched. -/
theorem c8_witness :
    transfer sOne 2 3 0 = (sOne, some KittyError.onlyOwnerCanTransfer) ∧
      ask sOne 2 0 (some 5) = (sOne, some KittyError.onlyOwnerCanAsk) :=
  (c8_transfer_ask_not_owner sOne 2 3 0 (some 5)).2.2.1 (by decide)

/-- Claim C9: when the caller holds the kitty, `ask` with some price `p`
stores `p` unconditionally (no positivity check, so 0 is accepted),
`ask` with none removes any price entry (succeeding even when none
exists), the `Ask` event is emitted, and nothing else changes. -/
theorem c9_ask_semantics (s : State) (c : AccountId) (id : KittyIndex)
    (hown : (s.ownedKitties c (some id)).isSome) :
    (∀ p : Nat, ask s c id (some p) =
      ({ s with
          kittyPrices := mapInsert s.kittyPrices id p
          events := s.events ++ [Event.Ask c id (some p)] }, none)) ∧
    (ask s c id none =
      ({ s with
          kittyPrices := mapRemove s.kittyPrices id
          events := s.events ++ [Event.Ask c id none] }, none)) := by
  constructor
  · intro p
    simp [ask, hown]
  · simp [ask, hown]

/-- Witness for C9: account 1 lists kitty 0 at price 0 and then delists
it. -/
theorem c9_witness :
    ask sOne 1 0 (some 0) =
      ({ sOne with
          kittyPrices := mapInsert sOne.kittyPrices 0 0
          events := sOne.events ++ [Event.Ask 1 0 (some 0)] }, none) ∧
    ask sOne 1 0 none =
      ({ sOne with
          kittyPrices := mapRemove sOne.kittyPrices 0
          events := sOne.events ++ [Event.Ask 1 0 none] }, none) := by
  have h := c9_ask_semantics sOne 1 0 (by decide)
  exact ⟨h.1 0, h.2⟩

/-- Claim C3: `buy` checks existence, listing and affordability in
order; a `max_price` equal to the listed price succeeds; on success with
a sufficient balance, the listed price (not `max_price`) moves from the
caller to the previous owner, the price entry is removed, the id moves
from the previous owner's index slice to the caller's, the owner pointer
becomes the caller, and `Sold(previous owner, caller, id, listed price)`
is emitted. -/
theorem c3_buy_semantics (s : State) (c : AccountId) (id : KittyIndex) (maxp : Nat) :
    (s.kittyOwners id = none → buy s c id maxp = (s, some KittyError.kittyNotExist)) ∧
    (∀ ow, s.kittyOwners id = some ow → s.kittyPrices id = none →
      buy s c id maxp = (s, some KittyError.kittyNotForSale)) ∧
    (∀ ow p, s.kittyOwners id = some ow → s.kittyPrices id = some p → maxp < p →
      buy s c id maxp = (s, some KittyError.priceTooLow)) ∧
    (∀ ow p, s.kittyOwners id = some ow → s.kittyPrices id = some p → p ≤ maxp →
      s.balances c < p → buy s c id maxp = (s, some KittyError.insufficientFunds)) ∧
    (∀ ow p, s.kittyOwners id = some ow → s.kittyPrices id = some p → p ≤ maxp →
      p ≤ s.balances c →
      (buy s c id maxp).2 = none ∧
      (buy s c id maxp).1.kittyPrices id = none ∧
      (buy s c id maxp).1.kittyOwners id = some c ∧
      (buy s c id maxp).1.ownedKitties = listAppend (listRemove s.ownedKitties ow id) c id ∧
      ((buy s c id maxp).1.ownedKitties c (some id)).isSome ∧
      (c ≠ ow → (buy s c id maxp).1.ownedKitties ow (some id) = none) ∧
      (buy s c id maxp).1.events = s.events ++ [Event.Sold ow c id p] ∧
      (buy s c id maxp).1.kitties = s.kitties ∧
      (buy s c id maxp).1.kittiesCount = s.kittiesCount ∧
      (c ≠ ow → (buy s c id maxp).1.balances c = s.balances c - p ∧
        (buy s c id maxp).1.balances ow = s.balances ow + p)) := by
  refine ⟨?_, ?_, ?_, ?_, ?_⟩
  · intro h
    simp [buy, h]
  · intro ow how hp
    simp [buy, how, hp]
  · intro ow p how hp hlt
    simp [buy, how, hp, hlt]
  · intro ow p how hp hple hbal
    simp [buy, how, hp, Nat.not_lt.mpr hple, currencyTransfer, Nat.not_le.mpr hbal]
  · intro ow p how hp hple hbal
    have howned : (buy s c id maxp).1.ownedKitties =
        listAppend (listRemove s.ownedKitties ow id) c id := by
      simp [buy, how, hp, Nat.not_lt.mpr hple, currencyTransfer, hbal, do_transfer]
    refine ⟨?_, ?_, ?_, howned, ?_, ?_, ?_, ?_, ?_, ?_⟩
    · simp [buy, how, hp, Nat.not_lt.mpr hple, currencyTransfer, hbal]
    · simp [buy, how, hp, Nat.not_lt.mpr hple, currencyTransfer, hbal, do_transfer, mapRemove]
    · simp only [buy, how, hp, Nat.not_lt.mpr hple, currencyTransfer, hbal, if_true,
        if_pos hbal, if_neg (by omega : ¬ maxp < p)]
      simp [do_transfer, mapInsert]
    · rw [howned, listAppend_self]
      exact gAppend_isSome _ _
    · intro hco
      rw [howned, listAppend_other _ _ (Ne.symm hco), listRemove_self]
      exact gRemove_self _ _
    · simp [buy, how, hp, Nat.not_lt.mpr hple, currencyTransfer, hbal, do_transfer]
    · simp [buy, how, hp, Nat.not_lt.mpr hple, currencyTransfer, hbal, do_transfer]
    · simp [buy, how, hp, Nat.not_lt.mpr hple, currencyTransfer, hbal, do_transfer]
    · intro hco
      constructor
      · simp [buy, how, hp, Nat.not_lt.mpr hple, currencyTransfer, hbal, do_transfer, hco]
      · simp [buy, how, hp, Nat.not_lt.mpr hple, currencyTransfer, hbal, do_transfer,
          Ne.symm hco]

/-- Witness for C3: account 2 buys the listed kitty 0 at exactly the
listed price 10. -/
theorem c3_witness :
    (buy sAsk 2 0 10).2 = none ∧ (buy sAsk 2 0 10).1.kittyOwners 0 = some 2 ∧
      (buy sAsk 2 0 10).1.kittyPrices 0 = none ∧
      (buy sAsk 2 0 10).1.balances 1 = 20 ∧ (buy sAsk 2 0 10).1.balances 2 = 10 := by
  have h := (c3_buy_semantics sAsk 2 0 10).2.2.2.2 1 10 (by decide) (by decide) (by decide)
    (by decide)
  refine ⟨h.1, h.2.2.1, h.2.1, ?_, ?_⟩
  · rw [(h.2.2.2.2.2.2.2.2.2 (by decide)).2]
    decide
  · rw [(h.2.2.2.2.2.2.2.2.2 (by decide)).1]
    decide

theorem do_breed_cases (maxId : Nat) (s : State) (c : AccountId) (i1 i2 : KittyIndex)
    (sel : List Nat) :
    (∃ e, do_breed maxId s c i1 i2 sel = (s, .error e)) ∨
    (∃ k1 k2, s.kitties i1 = some k1 ∧ s.kitties i2 = some k2 ∧
      do_breed maxId s c i1 i2 sel =
        (insert_kitty s c s.kittiesCount ⟨childDna k1.dna k2.dna sel⟩,
          .ok s.kittiesCount)) := by
  cases h1 : s.kitties i1 with
  | none => exact Or.inl ⟨.invalidKittyId1, by simp [do_breed, h1]⟩
  | some k1 =>
    cases h2 : s.kitties i2 with
    | none => exact Or.inl ⟨.invalidKittyId2, by simp [do_breed, h1, h2]⟩
    | some k2 =>
      by_cases h3 : i1 = i2
      · exact Or.inl ⟨.needsDifferentParent, by simp [do_breed, h1, h2, h3]⟩
      · by_cases h4 : s.kittyOwners i1 = some c
        · by_cases h5 : s.kittyOwners i2 = some c
          · by_cases h6 : s.kittiesCount = maxId
            · exact Or.inl ⟨.kittiesCountOverflow,
                by simp [do_breed, next_kitty_id, h1, h2, h3, h4, h5, h6]⟩
            · exact Or.inr ⟨k1, k2, rfl, rfl,
                by simp [do_breed, next_kitty_id, h1, h2, h3, h4, h5, h6]⟩
          · exact Or.inl ⟨.notOwnerOfKitty2, by simp [do_breed, h1, h2, h3, h4, h5]⟩
        · exact Or.inl ⟨.notOwnerOfKitty1, by simp [do_breed, h1, h2, h3, h4]⟩

/-- Claim C2: each of the five operations is transactional — whenever it
returns a failure the whole state is exactly as before the call (every
check precedes every write), and on success the described writes take
effect. -/
theorem c2_transactional (maxId : Nat) (s : State) :
    (∀ c d e, (create maxId s c d).2 = some e → (create maxId s c d).1 = s) ∧
    (∀ c i1 i2 sel e, (breed maxId s c i1 i2 sel).2 = some e →
      (breed maxId s c i1 i2 sel).1 = s) ∧
    (∀ c r i e, (transfer s c r i).2 = some e → (transfer s c r i).1 = s) ∧
    (∀ c i p e, (ask s c i p).2 = some e → (ask s c i p).1 = s) ∧
    (∀ c i mp e, (buy s c i mp).2 = some e → (buy s c i mp).1 = s) ∧
    (∀ c d, (create maxId s c d).2 = none → (create maxId s c d).1 =
      { insert_kitty s c s.kittiesCount ⟨d⟩ with
          events := s.events ++ [Event.Created c s.kittiesCount] }) ∧
    (∀ c i1 i2 sel, (breed maxId s c i1 i2 sel).2 = none → ∃ k1 k2,
      s.kitties i1 = some k1 ∧ s.kitties i2 = some k2 ∧
      (breed maxId s c i1 i2 sel).1 =
        { insert_kitty s c s.kittiesCount ⟨childDna k1.dna k2.dna sel⟩ with
            events := s.events ++ [Event.Created c s.kittiesCount] }) ∧
    (∀ c r i, (transfer s c r i).2 = none → (transfer s c r i).1 =
      { do_transfer s c r i with
          events := s.events ++ [Event.Transferred c r i] }) ∧
    (∀ c i p, (ask s c i p).2 = none → (ask s c i p).1 =
      { s with
          kittyPrices := match p with
            | some pr => mapInsert s.kittyPrices i pr
            | none => mapRemove s.kittyPrices i
          events := s.events ++ [Event.Ask c i p] }) ∧
    (∀ c i mp, (buy s c i mp).2 = none → ∃ ow pr, s.kittyOwners i = some ow ∧
      s.kittyPrices i = some pr ∧ (buy s c i mp).1 =
        { do_transfer
            ({ (currencyTransfer s c ow pr).1 with
                kittyPrices := mapRemove (currencyTransfer s c ow pr).1.kittyPrices i })
            ow c i with
            events := s.events ++ [Event.Sold ow c i pr] }) := by
  refine ⟨?_, ?_, ?_, ?_, ?_, ?_, ?_, ?_, ?_, ?_⟩
  · intro c d e h
    by_cases hc : s.kittiesCount = maxId
    · simp [create, next_kitty_id, hc]
    · exfalso
      simp [create, next_kitty_id, hc] at h
  · intro c i1 i2 sel e h
    rcases do_breed_cases maxId s c i1 i2 sel with ⟨e2, hd⟩ | ⟨k1, k2, h1, h2, hd⟩
    · simp [breed, hd]
    · exfalso
      rw [breed, hd] at h
      simp at h
  · intro c r i e h
    cases hc : s.ownedKitties c (some i) with
    | none => simp [transfer, hc]
    | some it =>
      exfalso
      simp [transfer, hc] at h
  · intro c i p e h
    cases hc : s.ownedKitties c (some i) with
    | none => simp [ask, hc]
    | some it =>
      exfalso
      cases p with
      | some pr => simp [ask, hc] at h
      | none => simp [ask, hc] at h
  · intro c i mp e h
    cases how : s.kittyOwners i with
    | none => simp [buy, how]
    | some ow =>
      cases hp : s.kittyPrices i with
      | none => simp [buy, how, hp]
      | some pr =>
        by_cases hlt : mp < pr
        · simp [buy, how, hp, hlt]
        · by_cases hb : pr ≤ s.balances c
          · exfalso
            simp [buy, how, hp, hlt, currencyTransfer, hb] at h
          · simp [buy, how, hp, hlt, currencyTransfer, hb]
  · intro c d h
    by_cases hc : s.kittiesCount = maxId
    · exfalso
      simp [create, next_kitty_id, hc] at h
    · simp [create, next_kitty_id, hc]
  · intro c i1 i2 sel h
    rcases do_breed_cases maxId s c i1 i2 sel with ⟨e2, hd⟩ | ⟨k1, k2, h1, h2, hd⟩
    · exfalso
      rw [breed, hd] at h
      simp at h
    · exact ⟨k1, k2, h1, h2, by simp [breed, hd]⟩
  · intro c r i h
    cases hc : s.ownedKitties c (some i) with
    | none =>
      exfalso
      simp [transfer, hc] at h
    | some it => simp [transfer, hc]
  · intro c i p h
    cases hc : s.ownedKitties c (some i) with
    | none =>
      exfalso
      cases p with
      | some pr => simp [ask, hc] at h
      | none => simp [ask, hc] at h
    | some it =>
      cases p with
      | some pr => simp [ask, hc]
      | none => simp [ask, hc]
  · intro c i mp h
    cases how : s.kittyOwners i with
    | none =>
      exfalso
      simp [buy, how] at h
    | some ow =>
      cases hp : s.kittyPrices i with
      | none =>
        exfalso
        simp [buy, how, hp] at h
      | some pr =>
        by_cases hlt : mp < pr
        · exfalso
          simp [buy, how, hp, hlt] at h
        · by_cases hb : pr ≤ s.balances c
          · exact ⟨ow, pr, rfl, rfl, by
              simp [buy, how, hp, hlt, currencyTransfer, hb]⟩
          · exfalso
            simp [buy, how, hp, hlt, currencyTransfer, hb] at h

/-- Witness for C2: in the saturated-counter fixture, a failing create
leaves the state identical, and in the listed fixture a failing buy at
too low a price leaves the state identical. -/
theorem c2_witness :
    (create 2 sMax 1 dnaFix).1 = sMax ∧ (buy sAsk 2 0 3).1 = sAsk :=
  ⟨(c2_transactional 2 sMax).1 1 dnaFix KittyError.kittiesCountOverflow (by decide),
    (c2_transactional 100 sAsk).2.2.2.2.1 2 0 3 KittyError.priceTooLow (by decide)⟩

/-- Counterexample for C6 as stated: with the id bound 2, after two
creates the counter equals the maximum representable id, yet breeding
kitty 0 with itself fails with the same-parent error, not the counter
overflow — so "breed fails with CounterOverflow" does not hold for every
call at a saturated counter. -/
theorem c6_counterexample :
    sMax.kittiesCount = 2 ∧
      (breed 2 sMax 1 0 0 selFix).2 = some KittyError.needsDifferentParent ∧
      KittyError.needsDifferentParent.kind ≠ ErrKind.counterOverflow := by
  refine ⟨by decide, by decide, by decide⟩

/-- Claim C6 (amended): after every operation sequence from the empty
state, asset records and owner pointers exist exactly for the ids
strictly below the counter (so the counter is 1 + the highest assigned
id, or 0 when none is); when the counter equals the maximum
representable id, create fails with the counter-overflow error leaving
the state unchanged, and breed does so whenever its existence,
distinctness and ownership checks pass (otherwise it fails with that
earlier error). -/
theorem c6_counter_dense (bal : AccountId → Nat) (maxId : Nat) (ops : List Op)
    (s : State) (hs : s = applyOps maxId (initState bal) ops) :
    (∀ id, (s.kitties id).isSome ↔ id < s.kittiesCount) ∧
    (∀ id, (s.kittyOwners id).isSome ↔ id < s.kittiesCount) ∧
    (s.kittiesCount = maxId →
      (∀ c d, create maxId s c d = (s, some KittyError.kittiesCountOverflow)) ∧
      (∀ c i1 i2 sel, (s.kitties i1).isSome → (s.kitties i2).isSome → i1 ≠ i2 →
        s.kittyOwners i1 = some c → s.kittyOwners i2 = some c →
        breed maxId s c i1 i2 sel = (s, some KittyError.kittiesCountOverflow))) := by
  have hInv : Inv s := hs ▸ inv_applyOps maxId (inv_initState bal) ops
  refine ⟨hInv.1, hInv.2.1, ?_⟩
  intro hc
  constructor
  · intro c d
    simp [create, next_kitty_id, hc]
  · intro c i1 i2 sel h1 h2 h3 h4 h5
    obtain ⟨k1, hk1⟩ := Option.isSome_iff_exists.mp h1
    obtain ⟨k2, hk2⟩ := Option.isSome_iff_exists.mp h2
    have hd : do_breed maxId s c i1 i2 sel =
        (s, .error KittyError.kittiesCountOverflow) := by
      simp [do_breed, next_kitty_id, hk1, hk2, h3, h4, h5, hc]
    simp [breed, hd]

/-- Witness for C6: density at the saturated fixture, and the failing
create there returning the unchanged state. -/
theorem c6_witness :
    ((sMax.kitties 0).isSome ↔ 0 < sMax.kittiesCount) ∧
      create 2 sMax 1 dnaFix = (sMax, some KittyError.kittiesCountOverflow) := by
  have h := c6_counter_dense balFix 2 [Op.create 1 dnaFix, Op.create 1 dnaFix] sMax rfl
  exact ⟨h.1 0, (h.2.2 (by decide)).1 1 dnaFix⟩

end Kitties
